import Mathlib

/-!
Verification of the ERA5 daily-range downloader
(`src/data_access/era5-healpix-pipeline.py`) via a shallow embedding.

The script's state is the listing of the output directory (`data_dir`);
the external CDS client, `tempfile.mkdtemp` and `shutil.rmtree` outcomes
are modelled as oracles supplied per date.  Calendar dates embed Python
`datetime.date` (proleptic Gregorian, years 1..9999); filenames are lists
of characters.
-/

set_option maxHeartbeats 1000000

namespace Era5

/-- Proleptic Gregorian calendar date; embeds Python `datetime.date`
with fields `year`, `month`, `day`. -/
structure Date where
  year : Nat
  month : Nat
  day : Nat
deriving DecidableEq, Repr

/-- Gregorian leap-year rule, as used by Python `datetime`. -/
def isLeapYear (y : Nat) : Bool :=
  (y % 4 == 0 && y % 100 != 0) || (y % 400 == 0)

/-- Number of days in month `m` of year `y` (Python `calendar.monthrange`
semantics; months outside 1..12 never arise from valid dates). -/
def daysInMonth (y m : Nat) : Nat :=
  if m = 2 then (if isLeapYear y then 29 else 28)
  else if m = 4 ∨ m = 6 ∨ m = 9 ∨ m = 11 then 30
  else 31

theorem daysInMonth_le (y m : Nat) : daysInMonth y m ≤ 31 := by
  unfold daysInMonth
  split_ifs <;> simp

theorem daysInMonth_ge (y m : Nat) : 28 ≤ daysInMonth y m := by
  unfold daysInMonth
  split_ifs <;> simp

/-- Structural validity of a `datetime.date` value: Python guarantees
`1 ≤ year ≤ 9999` (MINYEAR..MAXYEAR), `1 ≤ month ≤ 12`,
`1 ≤ day ≤ daysInMonth`. -/
def Date.Valid (x : Date) : Prop :=
  1 ≤ x.year ∧ x.year ≤ 9999 ∧ 1 ≤ x.month ∧ x.month ≤ 12 ∧
    1 ≤ x.day ∧ x.day ≤ daysInMonth x.year x.month

instance (x : Date) : Decidable x.Valid := by
  unfold Date.Valid; infer_instance

/-- Python `date` ordering `a <= b`: lexicographic on (year, month, day). -/
def Date.le (a b : Date) : Prop :=
  a.year < b.year ∨ (a.year = b.year ∧
    (a.month < b.month ∨ (a.month = b.month ∧ a.day ≤ b.day)))

/-- Python `date` ordering `a < b`: lexicographic on (year, month, day). -/
def Date.lt (a b : Date) : Prop :=
  a.year < b.year ∨ (a.year = b.year ∧
    (a.month < b.month ∨ (a.month = b.month ∧ a.day < b.day)))

instance (a b : Date) : Decidable (Date.le a b) := by
  unfold Date.le; infer_instance

instance (a b : Date) : Decidable (Date.lt a b) := by
  unfold Date.lt; infer_instance

theorem Date.valid_mk {y m d : Nat} :
    (Date.mk y m d).Valid ↔
      1 ≤ y ∧ y ≤ 9999 ∧ 1 ≤ m ∧ m ≤ 12 ∧ 1 ≤ d ∧ d ≤ daysInMonth y m :=
  Iff.rfl

theorem Date.le_mk {y1 m1 d1 y2 m2 d2 : Nat} :
    Date.le ⟨y1, m1, d1⟩ ⟨y2, m2, d2⟩ ↔
      y1 < y2 ∨ (y1 = y2 ∧ (m1 < m2 ∨ (m1 = m2 ∧ d1 ≤ d2))) :=
  Iff.rfl

theorem Date.lt_mk {y1 m1 d1 y2 m2 d2 : Nat} :
    Date.lt ⟨y1, m1, d1⟩ ⟨y2, m2, d2⟩ ↔
      y1 < y2 ∨ (y1 = y2 ∧ (m1 < m2 ∨ (m1 = m2 ∧ d1 < d2))) :=
  Iff.rfl

theorem Date.le_refl (a : Date) : Date.le a a := by
  simp [Date.le]

theorem Date.le_trans {a b c : Date} (h1 : Date.le a b) (h2 : Date.le b c) :
    Date.le a c := by
  rcases a with ⟨y1, m1, d1⟩; rcases b with ⟨y2, m2, d2⟩; rcases c with ⟨y3, m3, d3⟩
  simp only [Date.le] at *
  omega

theorem Date.lt_iff {a b : Date} : Date.lt a b ↔ Date.le a b ∧ a ≠ b := by
  rcases a with ⟨y1, m1, d1⟩; rcases b with ⟨y2, m2, d2⟩
  simp only [Date.le, Date.lt, ne_eq, Date.mk.injEq]
  omega

theorem Date.lt_le {a b : Date} (h : Date.lt a b) : Date.le a b :=
  (Date.lt_iff.mp h).1

theorem Date.lt_le_trans {a b c : Date} (h1 : Date.lt a b) (h2 : Date.le b c) :
    Date.lt a c := by
  rcases a with ⟨y1, m1, d1⟩; rcases b with ⟨y2, m2, d2⟩; rcases c with ⟨y3, m3, d3⟩
  simp only [Date.le, Date.lt] at *
  omega

/-- Python `date + timedelta(days=1)`: the next calendar day. -/
def Date.nextDay (x : Date) : Date :=
  if x.day < daysInMonth x.year x.month then ⟨x.year, x.month, x.day + 1⟩
  else if x.month < 12 then ⟨x.year, x.month + 1, 1⟩
  else ⟨x.year + 1, 1, 1⟩

/-- Python `date - timedelta(days=1)`: the previous calendar day. -/
def Date.prevDay (x : Date) : Date :=
  if 1 < x.day then ⟨x.year, x.month, x.day - 1⟩
  else if 1 < x.month then ⟨x.year, x.month - 1, daysInMonth x.year (x.month - 1)⟩
  else ⟨x.year - 1, 12, 31⟩

/-- Python `date - timedelta(days=n)`. -/
def Date.subDays (x : Date) : Nat → Date
  | 0 => x
  | n + 1 => Date.subDays (Date.prevDay x) n

theorem Date.nextDay_mk {y m d : Nat} :
    Date.nextDay ⟨y, m, d⟩ =
      if d < daysInMonth y m then ⟨y, m, d + 1⟩
      else if m < 12 then ⟨y, m + 1, 1⟩
      else ⟨y + 1, 1, 1⟩ :=
  rfl

theorem Date.lt_nextDay (x : Date) : Date.lt x (Date.nextDay x) := by
  rcases x with ⟨y, m, d⟩
  rw [Date.nextDay_mk]
  split_ifs <;> simp only [Date.lt_mk, true_and, and_true] <;> omega

/-- The successor property: for valid dates there is no calendar date
strictly between `x` and `Date.nextDay x`. -/
theorem Date.nextDay_le_iff {x z : Date} (hx : x.Valid) (hz : z.Valid) :
    Date.le (Date.nextDay x) z ↔ Date.lt x z := by
  rcases x with ⟨y1, m1, d1⟩; rcases z with ⟨y2, m2, d2⟩
  rw [Date.valid_mk] at hx hz
  have h31a := daysInMonth_le y1 m1
  have h31b := daysInMonth_le y2 m2
  have hdim : y1 = y2 → m1 = m2 → daysInMonth y1 m1 = daysInMonth y2 m2 := by
    intro h h'; rw [h, h']
  rw [Date.nextDay_mk]
  split_ifs with h1 h2 <;> simp only [Date.le_mk, Date.lt_mk, true_and, and_true] <;> omega

/-- Validity is preserved by `nextDay` as long as the successor is still
bounded by some valid date. -/
theorem Date.nextDay_valid {x z : Date} (hx : x.Valid) (hz : z.Valid)
    (h : Date.le (Date.nextDay x) z) : (Date.nextDay x).Valid := by
  rcases x with ⟨y1, m1, d1⟩; rcases z with ⟨y2, m2, d2⟩
  rw [Date.valid_mk] at hx hz
  have h31 := daysInMonth_le y1 m1
  have hg1 := daysInMonth_ge y1 (m1 + 1)
  have hg2 := daysInMonth_ge (y1 + 1) 1
  rw [Date.nextDay_mk] at h ⊢
  split_ifs at h ⊢ with h1 h2 <;>
    simp only [Date.le_mk, true_and, and_true] at h <;>
    rw [Date.valid_mk] <;> omega

/-- Upper bound on the remaining number of loop iterations from `c` to `e`;
used only as a termination measure. -/
def loopFuel (c e : Date) : Nat :=
  (e.year + 1 - c.year) * 500 + (13 - min c.month 13) * 31 + (31 - min c.day 31)

theorem loopFuel_mk {y1 m1 d1 y2 m2 d2 : Nat} :
    loopFuel ⟨y1, m1, d1⟩ ⟨y2, m2, d2⟩ =
      (y2 + 1 - y1) * 500 + (13 - min m1 13) * 31 + (31 - min d1 31) :=
  rfl

theorem loopFuel_decr {c e : Date} (h : Date.le c e) :
    loopFuel (Date.nextDay c) e < loopFuel c e := by
  rcases c with ⟨y1, m1, d1⟩; rcases e with ⟨y2, m2, d2⟩
  rw [Date.le_mk] at h
  have h31 := daysInMonth_le y1 m1
  have h28 := daysInMonth_ge y1 m1
  rw [Date.nextDay_mk]
  split_ifs with h1 h2 <;> simp only [loopFuel_mk] <;> omega

/-- The ascending sequence of dates iterated by the
`while current_date <= end_date` loop in `process_and_archive_daily_data`
(lines 38-47), independent of per-date effects. -/
def visitLoop (c e : Date) : List Date :=
  if Date.le c e then c :: visitLoop (Date.nextDay c) e else []
termination_by loopFuel c e
decreasing_by exact loopFuel_decr (by assumption)

theorem visitLoop_pos {c e : Date} (h : Date.le c e) :
    visitLoop c e = c :: visitLoop (Date.nextDay c) e := by
  rw [visitLoop.eq_def]
  simp [h]

theorem visitLoop_neg {c e : Date} (h : ¬ Date.le c e) :
    visitLoop c e = [] := by
  rw [visitLoop.eq_def]
  simp [h]

theorem Date.not_le {a b : Date} : ¬ Date.le a b ↔ Date.lt b a := by
  rcases a with ⟨y1, m1, d1⟩; rcases b with ⟨y2, m2, d2⟩
  simp only [Date.le_mk, Date.lt_mk]
  omega

/-- The loop visits exactly the closed calendar interval: membership
characterization. -/
theorem visitLoop_mem {s e : Date} (hs : s.Valid) (he : e.Valid) (d : Date) :
    d ∈ visitLoop s e ↔ d.Valid ∧ Date.le s d ∧ Date.le d e := by
  by_cases h : Date.le s e
  · rw [visitLoop_pos h]
    by_cases hne : Date.le (Date.nextDay s) e
    · have hv := Date.nextDay_valid hs he hne
      have ih := visitLoop_mem hv he d
      rw [List.mem_cons, ih]
      constructor
      · rintro (rfl | ⟨hdv, h1, h2⟩)
        · exact ⟨hs, Date.le_refl _, h⟩
        · exact ⟨hdv, Date.lt_le ((Date.nextDay_le_iff hs hdv).mp h1), h2⟩
      · rintro ⟨hdv, h1, h2⟩
        by_cases hds : d = s
        · exact Or.inl hds
        · refine Or.inr ⟨hdv, ?_, h2⟩
          exact (Date.nextDay_le_iff hs hdv).mpr
            (Date.lt_iff.mpr ⟨h1, fun hc => hds hc.symm⟩)
    · rw [visitLoop_neg hne]
      constructor
      · intro hd
        rcases List.mem_cons.mp hd with rfl | hd
        · exact ⟨hs, Date.le_refl d, h⟩
        · simp at hd
      · rintro ⟨hdv, h1, h2⟩
        by_cases hds : d = s
        · simp [hds]
        · exact absurd (Date.le_trans ((Date.nextDay_le_iff hs hdv).mpr
            (Date.lt_iff.mpr ⟨h1, fun hc => hds hc.symm⟩)) h2) hne
  · rw [visitLoop_neg h]
    simp only [List.not_mem_nil, false_iff]
    rintro ⟨_, h1, h2⟩
    exact h (Date.le_trans h1 h2)
termination_by loopFuel s e
decreasing_by exact loopFuel_decr h

/-- The loop visits dates in strictly ascending order (no repeats). -/
theorem visitLoop_pairwise {s e : Date} (hs : s.Valid) (he : e.Valid) :
    (visitLoop s e).Pairwise Date.lt := by
  by_cases h : Date.le s e
  · rw [visitLoop_pos h]
    by_cases hne : Date.le (Date.nextDay s) e
    · have hv := Date.nextDay_valid hs he hne
      refine List.Pairwise.cons ?_ (visitLoop_pairwise hv he)
      intro d hd
      obtain ⟨hdv, h1, _⟩ := (visitLoop_mem hv he d).mp hd
      exact (Date.nextDay_le_iff hs hdv).mp h1
    · rw [visitLoop_neg hne]
      simp
  · rw [visitLoop_neg h]
    simp
termination_by loopFuel s e
decreasing_by exact loopFuel_decr h

/-- Consecutive visited dates differ by exactly one calendar day
(no gaps, one date per day). -/
theorem visitLoop_chain (s e : Date) :
    (visitLoop s e).Chain' (fun a b => b = Date.nextDay a) := by
  by_cases h : Date.le s e
  · rw [visitLoop_pos h]
    by_cases hne : Date.le (Date.nextDay s) e
    · rw [visitLoop_pos hne]
      rw [List.chain'_cons]
      refine ⟨rfl, ?_⟩
      rw [← visitLoop_pos hne]
      exact visitLoop_chain (Date.nextDay s) e
    · rw [visitLoop_neg hne]
      simp
  · rw [visitLoop_neg h]
    simp
termination_by loopFuel s e
decreasing_by exact loopFuel_decr h

/-- Single-day range: the loop visits exactly that one day. -/
theorem visitLoop_self (d : Date) : visitLoop d d = [d] := by
  rw [visitLoop_pos (Date.le_refl d), visitLoop_neg]
  rw [Date.not_le]
  exact Date.lt_nextDay d

/-! ### Filenames and `strptime`-style date parsing (lines 65-75, 123, 146) -/

/-- Value of a decimal digit character, if it is one. -/
def digitVal (c : Char) : Option Nat :=
  if c.isDigit then some (c.toNat - 48) else none

/-- Decimal digit character for `n < 10`. -/
def digitChar (n : Nat) : Char := Char.ofNat (48 + n)

theorem digitVal_digitChar {n : Nat} (h : n < 10) :
    digitVal (digitChar n) = some n := by
  interval_cases n <;> decide

/-- Two-digit zero-padded decimal rendering (Python `%m`, `%d` in
`strftime`). -/
def pad2 (n : Nat) : List Char := [digitChar (n / 10), digitChar (n % 10)]

/-- Four-digit zero-padded decimal rendering (Python `%Y` in `strftime`). -/
def pad4 (n : Nat) : List Char :=
  [digitChar (n / 1000), digitChar (n / 100 % 10), digitChar (n / 10 % 10),
    digitChar (n % 10)]

/-- Python `target_date.strftime of "%Y-%m-%d"` (line 123 / 146). -/
def dateBaseName (x : Date) : List Char :=
  pad4 x.year ++ '-' :: pad2 x.month ++ '-' :: pad2 x.day

/-- The per-date output filename `YYYY-MM-DD.nc` (lines 123, 146). -/
def dateFileName (x : Date) : List Char := dateBaseName x ++ ".nc".data

/-- Python `fname.split of "." at index 0`: the portion before the first
dot (whole name when no dot occurs). -/
def beforeDot (s : List Char) : List Char := s.takeWhile (fun c => c != '.')

/-- CPython `_strptime` directive `%m` (regex `1[0-2]|0[1-9]|[1-9]`):
parses a month 1..12 and returns the unconsumed characters. -/
def parseMonth : List Char → Option (Nat × List Char)
  | c0 :: c1 :: rest =>
    match digitVal c0, digitVal c1 with
    | some a, some b =>
      if a = 1 ∧ b ≤ 2 then some (10 + b, rest)
      else if a = 0 ∧ 1 ≤ b then some (b, rest)
      else if 1 ≤ a then some (a, c1 :: rest)
      else none
    | some a, none => if 1 ≤ a then some (a, c1 :: rest) else none
    | none, _ => none
  | [c0] =>
    match digitVal c0 with
    | some a => if 1 ≤ a then some (a, []) else none
    | none => none
  | [] => none

/-- CPython `_strptime` directive `%d` (regex `3[01]|[12]\d|0[1-9]|[1-9]`):
parses a day 1..31 and returns the unconsumed characters. -/
def parseDay : List Char → Option (Nat × List Char)
  | c0 :: c1 :: rest =>
    match digitVal c0, digitVal c1 with
    | some a, some b =>
      if a = 3 ∧ b ≤ 1 then some (30 + b, rest)
      else if a = 1 ∨ a = 2 then some (10 * a + b, rest)
      else if a = 0 ∧ 1 ≤ b then some (b, rest)
      else if 1 ≤ a then some (a, c1 :: rest)
      else none
    | some a, none => if 1 ≤ a then some (a, c1 :: rest) else none
    | none, _ => none
  | [c0] =>
    match digitVal c0 with
    | some a => if 1 ≤ a then some (a, []) else none
    | none => none
  | [] => none

/-- Python `datetime.strptime(s, "%Y-%m-%d").date()` (line 71): `%Y` is
exactly four digits, literal dashes, `%m`/`%d` as above, the whole string
must be consumed, and the resulting calendar date must be constructible
(year 1..9999, day within the month). Returns `none` where Python raises
`ValueError`. -/
def parseYMD (s : List Char) : Option Date :=
  match s with
  | c1 :: c2 :: c3 :: c4 :: c5 :: rest =>
    match digitVal c1, digitVal c2, digitVal c3, digitVal c4 with
    | some a, some b, some c, some d =>
      if c5 = '-' then
        match parseMonth rest with
        | some (m, rest2) =>
          match rest2 with
          | c6 :: rest3 =>
            if c6 = '-' then
              match parseDay rest3 with
              | some (day, rest4) =>
                if rest4 = [] then
                  let y := ((a * 10 + b) * 10 + c) * 10 + d
                  if 1 ≤ y ∧ day ≤ daysInMonth y m then some ⟨y, m, day⟩
                  else none
                else none
              | none => none
            else none
          | [] => none
        | none => none
      else none
    | _, _, _, _ => none
  | _ => none

theorem parseMonth_digits {a b : Nat} (ha : a < 10) (hb : b < 10)
    (rest : List Char) :
    parseMonth (digitChar a :: digitChar b :: rest) =
      (if a = 1 ∧ b ≤ 2 then some (10 + b, rest)
       else if a = 0 ∧ 1 ≤ b then some (b, rest)
       else if 1 ≤ a then some (a, digitChar b :: rest)
       else none) := by
  simp only [parseMonth, digitVal_digitChar ha, digitVal_digitChar hb]

theorem parseDay_digits {a b : Nat} (ha : a < 10) (hb : b < 10)
    (rest : List Char) :
    parseDay (digitChar a :: digitChar b :: rest) =
      (if a = 3 ∧ b ≤ 1 then some (30 + b, rest)
       else if a = 1 ∨ a = 2 then some (10 * a + b, rest)
       else if a = 0 ∧ 1 ≤ b then some (b, rest)
       else if 1 ≤ a then some (a, digitChar b :: rest)
       else none) := by
  simp only [parseDay, digitVal_digitChar ha, digitVal_digitChar hb]

theorem parseMonth_pad2 {m : Nat} (h1 : 1 ≤ m) (h2 : m ≤ 12)
    (rest : List Char) :
    parseMonth (pad2 m ++ rest) = some (m, rest) := by
  have hd := parseMonth_digits (a := m / 10) (b := m % 10)
    (by omega) (by omega) rest
  simp only [pad2, List.cons_append, List.nil_append] at hd ⊢
  rw [hd]
  rcases Nat.lt_or_ge m 10 with hm | hm
  · rw [if_neg (by omega), if_pos (by omega)]
    simp only [Option.some.injEq, Prod.mk.injEq, and_true]
    omega
  · rw [if_pos (by omega)]
    simp only [Option.some.injEq, Prod.mk.injEq, and_true]
    omega

theorem parseDay_pad2 {d : Nat} (h1 : 1 ≤ d) (h2 : d ≤ 31)
    (rest : List Char) :
    parseDay (pad2 d ++ rest) = some (d, rest) := by
  have hd := parseDay_digits (a := d / 10) (b := d % 10)
    (by omega) (by omega) rest
  simp only [pad2, List.cons_append, List.nil_append] at hd ⊢
  rw [hd]
  rcases Nat.lt_or_ge d 10 with hd10 | hd10
  · rw [if_neg (by omega), if_neg (by omega), if_pos (by omega)]
    simp only [Option.some.injEq, Prod.mk.injEq, and_true]
    omega
  · rcases Nat.lt_or_ge d 30 with hd30 | hd30
    · rw [if_neg (by omega), if_pos (by omega)]
      simp only [Option.some.injEq, Prod.mk.injEq, and_true]
      omega
    · rw [if_pos (by omega)]
      simp only [Option.some.injEq, Prod.mk.injEq, and_true]
      omega

/-- Round trip: parsing the `strftime` rendering of a valid date recovers
exactly that date. -/
theorem parseYMD_dateBaseName {x : Date} (hx : x.Valid) :
    parseYMD (dateBaseName x) = some x := by
  rcases x with ⟨y, m, d⟩
  rw [Date.valid_mk] at hx
  obtain ⟨hy1, hy2, hm1, hm2, hd1, hd2⟩ := hx
  have h31 := daysInMonth_le y m
  have e1 : y / 1000 < 10 := by omega
  have e2 : y / 100 % 10 < 10 := by omega
  have e3 : y / 10 % 10 < 10 := by omega
  have e4 : y % 10 < 10 := by omega
  have hpd : parseDay (pad2 d) = some (d, []) := by
    have h := parseDay_pad2 hd1 (by omega) []
    simpa using h
  have hy : ((y / 1000 * 10 + y / 100 % 10) * 10 + y / 10 % 10) * 10 + y % 10 = y := by
    omega
  simp only [dateBaseName, pad4, List.cons_append, List.nil_append]
  simp only [parseYMD, digitVal_digitChar e1, digitVal_digitChar e2,
    digitVal_digitChar e3, digitVal_digitChar e4, if_true,
    parseMonth_pad2 hm1 hm2, hpd, hy]
  rw [if_pos ⟨hy1, hd2⟩]

theorem takeWhile_append_all {p : Char → Bool} {l1 l2 : List Char}
    (h : ∀ c ∈ l1, p c = true) :
    List.takeWhile p (l1 ++ l2) = l1 ++ List.takeWhile p l2 := by
  induction l1 with
  | nil => simp
  | cons c l ih =>
    have hc : p c = true := h c (by simp)
    simp [List.takeWhile_cons, hc, ih (fun x hx => h x (by simp [hx]))]

theorem digitChar_ne_dot {k : Nat} (h : k < 10) :
    (digitChar k != '.') = true := by
  interval_cases k <;> decide

theorem dateBaseName_no_dot {x : Date} (hx : x.Valid) :
    ∀ c ∈ dateBaseName x, (c != '.') = true := by
  rcases x with ⟨y, m, d⟩
  rw [Date.valid_mk] at hx
  obtain ⟨hy1, hy2, hm1, hm2, hd1, hd2⟩ := hx
  have h31 := daysInMonth_le y m
  have e1 : y / 1000 < 10 := by omega
  have e2 : y / 100 % 10 < 10 := by omega
  have e3 : y / 10 % 10 < 10 := by omega
  have e4 : y % 10 < 10 := by omega
  have e5 : m / 10 < 10 := by omega
  have e6 : m % 10 < 10 := by omega
  have e7 : d / 10 < 10 := by omega
  have e8 : d % 10 < 10 := by omega
  intro c hc
  simp only [dateBaseName, pad4, pad2, List.cons_append, List.nil_append,
    List.mem_cons, List.mem_append, List.not_mem_nil, or_false] at hc
  rcases hc with rfl | rfl | rfl | rfl | rfl | rfl | rfl | rfl | rfl | rfl <;>
    first
      | decide
      | exact digitChar_ne_dot (by omega)

/-- Splitting the final filename at the first dot recovers the
`YYYY-MM-DD` stem. -/
theorem beforeDot_dateFileName (x : Date) (hx : x.Valid) :
    beforeDot (dateFileName x) = dateBaseName x := by
  unfold dateFileName beforeDot
  rw [takeWhile_append_all (fun c hc => dateBaseName_no_dot hx c hc)]
  simp [String.data]

/-- Full round trip used by the skip logic: a file written for date `x`
parses back to `x`. -/
theorem parse_dateFileName {x : Date} (hx : x.Valid) :
    parseYMD (beforeDot (dateFileName x)) = some x := by
  rw [beforeDot_dateFileName x hx, parseYMD_dateBaseName hx]

/-- Filenames of distinct valid dates are distinct. -/
theorem dateFileName_inj {x z : Date} (hx : x.Valid) (hz : z.Valid)
    (h : dateFileName x = dateFileName z) : x = z := by
  have h1 := parse_dateFileName hx
  have h2 := parse_dateFileName hz
  rw [h, h2] at h1
  exact (Option.some.injEq _ _ ▸ h1 : z = x).symm

/-! ### Python values and the download configuration dict (lines 166-209) -/

/-- Python values occurring in a download configuration dict. -/
inductive PyVal where
  | vnone
  | vbool (b : Bool)
  | vint (n : Int)
  | vstr (s : List Char)
  | vlist (xs : List PyVal)
deriving Repr

/-- A Python dict with string keys, in insertion order. -/
abbrev Config := List (List Char × PyVal)

/-- Python `config[k]` lookup (also `k in config` via `isSome`). -/
def dictFind (cfg : Config) (k : List Char) : Option PyVal :=
  match cfg with
  | [] => none
  | (k', v) :: rest => if k' = k then some v else dictFind rest k

/-- Python `config.get(k, dflt)`. -/
def dictGetD (cfg : Config) (k : List Char) (dflt : PyVal) : PyVal :=
  (dictFind cfg k).getD dflt

/-- Python `config[k] = v`: in-place update preserving insertion order,
appending when the key is new. -/
def dictSet (cfg : Config) (k : List Char) (v : PyVal) : Config :=
  match cfg with
  | [] => [(k, v)]
  | (k', v') :: rest =>
    if k' = k then (k', v) :: rest else (k', v') :: dictSet rest k v

/-- Python truthiness of a value. -/
def truthy : PyVal → Bool
  | .vnone => false
  | .vbool b => b
  | .vint n => n != 0
  | .vstr s => !s.isEmpty
  | .vlist xs => !xs.isEmpty

/-- Python `isinstance(v, list)`. -/
def isPyList : PyVal → Bool
  | .vlist _ => true
  | _ => false

/-- Python `len(v)` for list values. -/
def pyListLen : PyVal → Nat
  | .vlist xs => xs.length
  | _ => 0

/-- The default global bounding box `[90, -180, -90, 180]`
(lines 178 and 205). -/
def globalArea : PyVal :=
  .vlist [.vint 90, .vint (-180), .vint (-90), .vint 180]

/-- Lines 166-179 `_get_default_download_config`. -/
def _get_default_download_config : Config :=
  [("variable".data,
      .vlist [.vstr "relative_humidity".data, .vstr "specific_humidity".data]),
   ("pressure_level".data,
      .vlist [.vstr "300".data, .vstr "500".data, .vstr "800".data,
        .vstr "900".data, .vstr "975".data]),
   ("time".data,
      .vlist [.vstr "00:00".data, .vstr "06:00".data, .vstr "12:00".data,
        .vstr "18:00".data]),
   ("area".data, globalArea)]

/-- Line 191: `required_keys.issubset(provided_keys)` for
`variable`, `pressure_level`, `time`. -/
def requiredKeysPresent (cfg : Config) : Bool :=
  (dictFind cfg "variable".data).isSome &&
    (dictFind cfg "pressure_level".data).isSome &&
    (dictFind cfg "time".data).isSome

/-- Lines 195-202: `isinstance(config[k], list) and len(config[k]) > 0`. -/
def validListField (cfg : Config) (k : List Char) : Bool :=
  match dictFind cfg k with
  | some (.vlist xs) => !xs.isEmpty
  | _ => false

/-- Line 206: `isinstance(config["area"], list) and len(...) == 4`. -/
def validAreaField (cfg : Config) : Bool :=
  match dictFind cfg "area".data with
  | some (.vlist xs) => xs.length == 4
  | _ => false

/-- Lines 181-209 `_validate_download_config`. The `Except.error` carries
the `ValueError` message; the `Except.ok` value is the argument dict —
the same object, with the default area written into it in place when the
supplied area was absent or falsy (lines 204-205). On every error path
the dict has not yet been mutated. -/
def _validate_download_config (config : Config) : Except (List Char) Config :=
  if !requiredKeysPresent config then
    .error "Missing required config keys".data
  else if !validListField config "variable".data then
    .error "variable must be a non-empty list".data
  else if !validListField config "pressure_level".data then
    .error "pressure_level must be a non-empty list".data
  else if !validListField config "time".data then
    .error "time must be a non-empty list".data
  else
    let config1 :=
      if !truthy (dictGetD config "area".data (.vbool false)) then
        dictSet config "area".data globalArea
      else config
    if !validAreaField config1 then
      .error "area must be a list of 4 values [North, West, South, East]".data
    else .ok config1

/-- Lines 211-232 `_build_cds_request`. -/
structure CdsRequest where
  product_type : List Char
  fileFormat : List Char
  reqVariable : PyVal
  pressure_level : PyVal
  reqYear : List Char
  reqMonth : List Char
  reqDay : List Char
  reqTime : PyVal
  reqArea : PyVal
deriving Repr

/-- Lines 222-232: request payload with `year` as `str(year)` and
zero-padded two-digit month and day. -/
def _build_cds_request (target : Date) (config : Config) : CdsRequest :=
  { product_type := "reanalysis".data
    fileFormat := "netcdf".data
    reqVariable := dictGetD config "variable".data .vnone
    pressure_level := dictGetD config "pressure_level".data .vnone
    reqYear := (Nat.repr target.year).data
    reqMonth := pad2 target.month
    reqDay := pad2 target.day
    reqTime := dictGetD config "time".data .vnone
    reqArea := dictGetD config "area".data .vnone }

/-! ### Filesystem, oracles and the download operation -/

/-- One entry of `os.listdir(data_dir)` with the facts the script
inspects: name, regular-file flag (`os.path.isfile`), size
(`os.path.getsize`). -/
structure DirEntry where
  name : List Char
  isFile : Bool
  size : Nat
deriving DecidableEq, Repr

/-- The listing of the output directory. -/
abbrev FileSys := List DirEntry

def entryNames (fs : FileSys) : List (List Char) := fs.map DirEntry.name

/-- Removal of every entry named `n` (model of `shutil.rmtree` on the
temporary directory). -/
def removeName (fs : FileSys) (n : List Char) : FileSys :=
  fs.filter (fun ent => ent.name != n)

/-- Writing or overwriting regular file `n` with `sz` bytes (model of
`shutil.move` into the data dir). -/
def setFile (fs : FileSys) (n : List Char) (sz : Nat) : FileSys :=
  removeName fs n ++ [⟨n, true, sz⟩]

/-- Lines 65-75 `_get_already_downloaded_dates`: keep regular files,
parse each name before its first dot as `YYYY-MM-DD`, skip names that
fail to parse. -/
def _get_already_downloaded_dates (fs : FileSys) : List Date :=
  fs.filterMap (fun ent =>
    if ent.isFile then parseYMD (beforeDot ent.name) else none)

/-- Outcome of one `self.client.retrieve(...)` call: it either populates
the destination or raises an exception of some kind (all client
exceptions derive from `Exception` and carry a type name and message;
line 152 catches them all). -/
inductive RetrieveOutcome where
  | success
  | raises (exnKind exnMsg : List Char)
deriving Repr

/-- Environment oracle for one download attempt: the suffix `mkdtemp`
appends to the `era5_download_` prefix, the client outcome, the output
file state observed after a successful call (`none` = missing,
`some sz` = present with `sz` bytes), and whether `shutil.rmtree`
raises. -/
structure DownloadOracle where
  tempSuffix : List Char
  retrieve : RetrieveOutcome
  fileAfter : Option Nat
  rmtreeFails : Bool

/-- The `mkdtemp` prefix at line 114. -/
def tempDirPfx : List Char := "era5_download_".data

/-- The name of the temporary directory created for one attempt. -/
def DownloadOracle.tempName (ora : DownloadOracle) : List Char :=
  tempDirPfx ++ ora.tempSuffix

/-- Observable per-run events, in order of occurrence. -/
inductive Event where
  | netCall (d : Date)
  | mkTemp (name : List Char)
  | rmTemp (name : List Char)
  | rmTempWarn (name : List Char)
  | moved (name : List Char)
  | skipped (d : Date)
  | processed (d : Date)
  | archived (d : Date)
deriving DecidableEq, Repr

/-- Constructor state of `ERA5HealpixPipeline` (lines 17-23); the output
directory itself is the `FileSys` value threaded through the run. -/
structure Pipeline where
  redownload : Bool
  debug : Bool

/-- Result of `download_data_for_date`: Python return value (final
filename, or `None` on failure/debug), directory listing afterward,
event trace, and the caller's config object after the call (validation
mutates it in place when it was supplied). -/
structure DownloadResult where
  result : Option (List Char)
  fs : FileSys
  events : List Event
  configAfter : Option Config

/-- The `finally` block (lines 156-164): remove the temporary directory,
logging (not raising) if removal fails. -/
def cleanupTemp (fs : FileSys) (ora : DownloadOracle) :
    FileSys × List Event :=
  if ora.rmtreeFails then (fs, [.rmTempWarn ora.tempName])
  else (removeName fs ora.tempName, [.rmTemp ora.tempName])

/-- Lines 77-164 `download_data_for_date` (`config? = none` means the
caller omitted `config`). -/
def download_data_for_date (p : Pipeline) (fs : FileSys)
    (ora : DownloadOracle) (target : Date) (config? : Option Config) :
    DownloadResult :=
  if p.debug then
    ⟨none, fs, [], config?⟩
  else
    let config := config?.getD _get_default_download_config
    match _validate_download_config config with
    | .error _ => ⟨none, fs, [], config?⟩
    | .ok config1 =>
      let configAfter := config?.map (fun _ => config1)
      let fs1 := fs ++ [⟨ora.tempName, false, 0⟩]
      let ev0 := [Event.mkTemp ora.tempName]
      match ora.retrieve with
      | .raises _ _ =>
        let (fs2, ev2) := cleanupTemp fs1 ora
        ⟨none, fs2, ev0 ++ [.netCall target] ++ ev2, configAfter⟩
      | .success =>
        match ora.fileAfter with
        | none =>
          let (fs2, ev2) := cleanupTemp fs1 ora
          ⟨none, fs2, ev0 ++ [.netCall target] ++ ev2, configAfter⟩
        | some 0 =>
          let (fs2, ev2) := cleanupTemp fs1 ora
          ⟨none, fs2, ev0 ++ [.netCall target] ++ ev2, configAfter⟩
        | some (sz + 1) =>
          let fname := dateFileName target
          let fs2 := setFile fs1 fname (sz + 1)
          let (fs3, ev3) := cleanupTemp fs2 ora
          ⟨some fname, fs3,
            ev0 ++ [.netCall target, .moved fname] ++ ev3, configAfter⟩

/-! ### The public run operation -/

/-- Failure raised before iteration by `process_and_archive_daily_data`:
an `AssertionError` from the date-argument contract (the spec's
`ConfigurationError`), or the `TypeError` that unpacking a `None`
resolution would raise (unreachable under the contract). -/
inductive RunError where
  | configurationError (msg : List Char)
  | typeError
deriving Repr

/-- Lines 50-63 `_get_start_and_end_dates`; `today` is the truncated
current UTC date `datetime.now(timezone.utc).date()`. Returns `none`
exactly on the fall-through path where Python would return `None`. -/
def _get_start_and_end_dates (start_date end_date fixed_date : Option Date)
    (today : Date) : Option (Date × Date) :=
  let latest_available_date := today.subDays 5
  match fixed_date with
  | some f => some (f, f)
  | none =>
    match start_date, end_date with
    | some s, some e => some (s, e)
    | some s, none => some (s, latest_available_date)
    | none, some e => some (Date.mk 1940 1 1, e)
    | none, none => none

/-- The `while` loop of lines 38-47, threading the directory listing and
collecting events. -/
def runLoop (p : Pipeline) (ora : Date → DownloadOracle)
    (already : List Date) (fs : FileSys) (c e : Date) :
    FileSys × List Event :=
  if Date.le c e then
    if c ∈ already ∧ p.redownload = false then
      let r := runLoop p ora already fs (Date.nextDay c) e
      (r.1, .skipped c :: r.2)
    else
      let dl := download_data_for_date p fs (ora c) c none
      let r := runLoop p ora already dl.fs (Date.nextDay c) e
      (r.1, dl.events ++ .processed c :: .archived c :: r.2)
  else (fs, [])
termination_by loopFuel c e
decreasing_by all_goals exact loopFuel_decr (by assumption)

/-- Lines 26-47 `process_and_archive_daily_data`, with the source's
default arguments (`start_date = date(1940, 1, 1)`, others `None`). -/
def process_and_archive_daily_data (p : Pipeline) (fs : FileSys)
    (ora : Date → DownloadOracle) (today : Date)
    (start_date : Option Date := some ⟨1940, 1, 1⟩)
    (end_date : Option Date := none) (fixed_date : Option Date := none) :
    Except RunError (FileSys × List Event) :=
  if ¬ (start_date.isSome ∨ end_date.isSome ∨ fixed_date.isSome) then
    .error (.configurationError
      "At least one of start_date, end_date, or fixed_date must be provided.".data)
  else if end_date.isSome ∧ fixed_date.isSome then
    .error (.configurationError
      "Provide either end_date or fixed_date, not both.".data)
  else
    match _get_start_and_end_dates start_date end_date fixed_date today with
    | none => .error .typeError
    | some (s, e) =>
      let already := _get_already_downloaded_dates fs
      .ok (runLoop p ora already fs s e)

/-! ### Trace observations -/

/-- Date of a loop iteration: each iterated date emits exactly one
`skipped` or one `processed` event. -/
def visitMark : Event → Option Date
  | .skipped d => some d
  | .processed d => some d
  | _ => none

/-- The dates the run visited, in order. -/
def visitedDates (tr : List Event) : List Date := tr.filterMap visitMark

def processedMark : Event → Option Date
  | .processed d => some d
  | _ => none

def archivedMark : Event → Option Date
  | .archived d => some d
  | _ => none

def isNetCall : Event → Bool
  | .netCall _ => true
  | _ => false

/-- Number of external retrieval calls in a trace. -/
def netCalls (tr : List Event) : Nat := tr.countP isNetCall

/-! ### Unfolding lemmas for the run loop -/

theorem runLoop_neg {p : Pipeline} {ora : Date → DownloadOracle}
    {already : List Date} {fs : FileSys} {c e : Date} (h : ¬ Date.le c e) :
    runLoop p ora already fs c e = (fs, []) := by
  rw [runLoop.eq_def]
  simp [h]

theorem runLoop_skip {p : Pipeline} {ora : Date → DownloadOracle}
    {already : List Date} {fs : FileSys} {c e : Date} (h : Date.le c e)
    (h1 : c ∈ already) (h2 : p.redownload = false) :
    runLoop p ora already fs c e =
      ((runLoop p ora already fs (Date.nextDay c) e).1,
        Event.skipped c :: (runLoop p ora already fs (Date.nextDay c) e).2) := by
  rw [runLoop.eq_def]
  rw [if_pos h, if_pos ⟨h1, h2⟩]

theorem runLoop_dl {p : Pipeline} {ora : Date → DownloadOracle}
    {already : List Date} {fs : FileSys} {c e : Date} (h : Date.le c e)
    (hnot : ¬ (c ∈ already ∧ p.redownload = false)) :
    runLoop p ora already fs c e =
      ((runLoop p ora already
          (download_data_for_date p fs (ora c) c none).fs
          (Date.nextDay c) e).1,
        (download_data_for_date p fs (ora c) c none).events ++
          Event.processed c :: Event.archived c ::
            (runLoop p ora already
              (download_data_for_date p fs (ora c) c none).fs
              (Date.nextDay c) e).2) := by
  rw [runLoop.eq_def]
  rw [if_pos h, if_neg hnot]

/-- The download operation emits no iteration-marking events. -/
theorem download_events_visitMark (p : Pipeline) (fs : FileSys)
    (ora : DownloadOracle) (target : Date) (cfg? : Option Config) :
    ((download_data_for_date p fs ora target cfg?).events).filterMap visitMark
      = [] := by
  unfold download_data_for_date cleanupTemp
  rcases hv : _validate_download_config (cfg?.getD _get_default_download_config)
      with e | c1 <;>
    simp only [hv] <;> (repeat' split)
  all_goals simp [visitMark]

/-- The download operation emits no `processed` events. -/
theorem download_events_processedMark (p : Pipeline) (fs : FileSys)
    (ora : DownloadOracle) (target : Date) (cfg? : Option Config) :
    ((download_data_for_date p fs ora target cfg?).events).filterMap
        processedMark = [] := by
  unfold download_data_for_date cleanupTemp
  rcases hv : _validate_download_config (cfg?.getD _get_default_download_config)
      with e | c1 <;>
    simp only [hv] <;> (repeat' split)
  all_goals simp [processedMark]

/-- The download operation emits no `archived` events. -/
theorem download_events_archivedMark (p : Pipeline) (fs : FileSys)
    (ora : DownloadOracle) (target : Date) (cfg? : Option Config) :
    ((download_data_for_date p fs ora target cfg?).events).filterMap
        archivedMark = [] := by
  unfold download_data_for_date cleanupTemp
  rcases hv : _validate_download_config (cfg?.getD _get_default_download_config)
      with e | c1 <;>
    simp only [hv] <;> (repeat' split)
  all_goals simp [archivedMark]

/-- The loop iterates over exactly the dates of `visitLoop`, whatever the
oracles, the directory contents and the skip set. -/
theorem runLoop_visitedDates (p : Pipeline) (ora : Date → DownloadOracle)
    (already : List Date) (fs : FileSys) (c e : Date) :
    visitedDates (runLoop p ora already fs c e).2 = visitLoop c e := by
  by_cases h : Date.le c e
  · by_cases hs : c ∈ already ∧ p.redownload = false
    · have ih := runLoop_visitedDates p ora already fs (Date.nextDay c) e
      rw [runLoop_skip h hs.1 hs.2, visitLoop_pos h]
      unfold visitedDates at ih ⊢
      rw [List.filterMap_cons]
      simp only [visitMark]
      rw [ih]
    · have ih := runLoop_visitedDates p ora already
        (download_data_for_date p fs (ora c) c none).fs (Date.nextDay c) e
      have hdl := download_events_visitMark p fs (ora c) c none
      rw [runLoop_dl h hs, visitLoop_pos h]
      unfold visitedDates at ih ⊢
      rw [List.filterMap_append, hdl, List.filterMap_cons, List.filterMap_cons]
      simp only [visitMark, List.nil_append]
      rw [ih]
  · rw [runLoop_neg h, visitLoop_neg h]
    rfl
termination_by loopFuel c e
decreasing_by all_goals exact loopFuel_decr h

/-! ### Wrapper lemmas for the public run -/

/-- Under the assertion contract the date resolution never falls
through. -/
theorem resolve_isSome {sd ed fd : Option Date} {today : Date}
    (h1 : sd.isSome ∨ ed.isSome ∨ fd.isSome)
    (h2 : ¬ (ed.isSome ∧ fd.isSome)) :
    (_get_start_and_end_dates sd ed fd today).isSome := by
  unfold _get_start_and_end_dates
  rcases fd with _ | f <;> rcases sd with _ | s <;> rcases ed with _ | e <;>
    simp_all

/-- When the assertions pass and resolution yields `(s, e)`, the run is
the loop over `[s, e]` from the pre-computed downloaded-date set. -/
theorem run_eq_ok {p : Pipeline} {fs : FileSys}
    {ora : Date → DownloadOracle} {today : Date}
    {sd ed fd : Option Date} {s e : Date}
    (h1 : sd.isSome ∨ ed.isSome ∨ fd.isSome)
    (h2 : ¬ (ed.isSome ∧ fd.isSome))
    (hres : _get_start_and_end_dates sd ed fd today = some (s, e)) :
    process_and_archive_daily_data p fs ora today sd ed fd =
      .ok (runLoop p ora (_get_already_downloaded_dates fs) fs s e) := by
  unfold process_and_archive_daily_data
  rw [if_neg (not_not_intro h1), if_neg h2, hres]

/-! ### Case lemmas for the download operation -/

/-- Debug mode: no work at all (lines 93-95). -/
theorem download_eq_debug {p : Pipeline} (hd : p.debug = true)
    (fs : FileSys) (ora : DownloadOracle) (target : Date)
    (cfg? : Option Config) :
    download_data_for_date p fs ora target cfg? = ⟨none, fs, [], cfg?⟩ := by
  unfold download_data_for_date
  rw [if_pos hd]

/-- Validation failure: `None` with no other effect (lines 104-108). -/
theorem download_eq_invalid {p : Pipeline} {cfg? : Option Config}
    {msg : List Char} (hd : p.debug = false)
    (hv : _validate_download_config (cfg?.getD _get_default_download_config)
      = .error msg)
    (fs : FileSys) (ora : DownloadOracle) (target : Date) :
    download_data_for_date p fs ora target cfg? = ⟨none, fs, [], cfg?⟩ := by
  unfold download_data_for_date
  rw [hd, if_neg Bool.false_ne_true]
  simp [hv]

/-- Client exception: caught, `None`, temp dir cleaned (lines 152-164). -/
theorem download_eq_raises {p : Pipeline} {cfg? : Option Config}
    {c1 : Config} {ora : DownloadOracle} {k m : List Char}
    (hd : p.debug = false)
    (hv : _validate_download_config (cfg?.getD _get_default_download_config)
      = .ok c1)
    (hr : ora.retrieve = .raises k m)
    (fs : FileSys) (target : Date) :
    download_data_for_date p fs ora target cfg? =
      ⟨none,
        (cleanupTemp (fs ++ [⟨ora.tempName, false, 0⟩]) ora).1,
        [Event.mkTemp ora.tempName, Event.netCall target] ++
          (cleanupTemp (fs ++ [⟨ora.tempName, false, 0⟩]) ora).2,
        cfg?.map (fun _ => c1)⟩ := by
  unfold download_data_for_date
  rw [hd, if_neg Bool.false_ne_true]
  simp [hv, hr]

/-- Successful call but missing or empty output file: `None`, temp dir
cleaned (lines 132-140). -/
theorem download_eq_badfile {p : Pipeline} {cfg? : Option Config}
    {c1 : Config} {ora : DownloadOracle}
    (hd : p.debug = false)
    (hv : _validate_download_config (cfg?.getD _get_default_download_config)
      = .ok c1)
    (hr : ora.retrieve = .success)
    (hf : ora.fileAfter = none ∨ ora.fileAfter = some 0)
    (fs : FileSys) (target : Date) :
    download_data_for_date p fs ora target cfg? =
      ⟨none,
        (cleanupTemp (fs ++ [⟨ora.tempName, false, 0⟩]) ora).1,
        [Event.mkTemp ora.tempName, Event.netCall target] ++
          (cleanupTemp (fs ++ [⟨ora.tempName, false, 0⟩]) ora).2,
        cfg?.map (fun _ => c1)⟩ := by
  unfold download_data_for_date
  rcases hf with hf | hf <;>
    rw [hd, if_neg Bool.false_ne_true] <;> simp [hv, hr, hf]

/-- Full success: the file is moved into place and its path returned
(lines 142-150). -/
theorem download_eq_success {p : Pipeline} {cfg? : Option Config}
    {c1 : Config} {ora : DownloadOracle} {sz : Nat}
    (hd : p.debug = false)
    (hv : _validate_download_config (cfg?.getD _get_default_download_config)
      = .ok c1)
    (hr : ora.retrieve = .success)
    (hf : ora.fileAfter = some (sz + 1))
    (fs : FileSys) (target : Date) :
    download_data_for_date p fs ora target cfg? =
      ⟨some (dateFileName target),
        (cleanupTemp
          (setFile (fs ++ [⟨ora.tempName, false, 0⟩]) (dateFileName target)
            (sz + 1)) ora).1,
        [Event.mkTemp ora.tempName, Event.netCall target,
          Event.moved (dateFileName target)] ++
          (cleanupTemp
            (setFile (fs ++ [⟨ora.tempName, false, 0⟩]) (dateFileName target)
              (sz + 1)) ora).2,
        cfg?.map (fun _ => c1)⟩ := by
  unfold download_data_for_date
  rw [hd, if_neg Bool.false_ne_true]
  simp [hv, hr, hf]

/-! ### Dictionary and filesystem lemmas -/

theorem dictFind_dictSet_self (cfg : Config) (k : List Char) (v : PyVal) :
    dictFind (dictSet cfg k v) k = some v := by
  induction cfg with
  | nil => simp [dictSet, dictFind]
  | cons kv rest ih =>
    rcases kv with ⟨k1, v1⟩
    by_cases h : k1 = k <;> simp [dictSet, dictFind, h, ih]

theorem dictFind_dictSet_other (cfg : Config) (k k2 : List Char) (v : PyVal)
    (h : k2 ≠ k) : dictFind (dictSet cfg k v) k2 = dictFind cfg k2 := by
  induction cfg with
  | nil =>
    simp only [dictSet, dictFind]
    rw [if_neg (fun hc => h hc.symm)]
  | cons kv rest ih =>
    rcases kv with ⟨k1, v1⟩
    by_cases h1 : k1 = k <;> by_cases h2 : k1 = k2 <;>
      simp_all [dictSet, dictFind]

theorem removeName_append (a b : FileSys) (n : List Char) :
    removeName (a ++ b) n = removeName a n ++ removeName b n := by
  simp [removeName, List.filter_append]

theorem removeName_of_all_ne {fs : FileSys} {n : List Char}
    (h : ∀ ent ∈ fs, ent.name ≠ n) : removeName fs n = fs := by
  unfold removeName
  rw [List.filter_eq_self]
  intro ent hent
  simpa using h ent hent

theorem not_mem_entryNames_removeName (fs : FileSys) (n : List Char) :
    n ∉ entryNames (removeName fs n) := by
  unfold entryNames removeName
  intro h
  obtain ⟨ent, hent, hname⟩ := List.mem_map.mp h
  obtain ⟨-, hkeep⟩ := List.mem_filter.mp hent
  rw [hname] at hkeep
  simp at hkeep

theorem DirEntry.name_mk {n : List Char} {b : Bool} {s : Nat} :
    (DirEntry.mk n b s).name = n := rfl

/-- Net filesystem effect of one successful download attempt with a
fresh temporary name: the temp dir comes and goes, the dated file is
written. -/
theorem download_fs_step {fs : FileSys} {ora : DownloadOracle}
    {fname : List Char} {sz : Nat}
    (hrm : ora.rmtreeFails = false)
    (hfresh : ∀ ent ∈ fs, ent.name ≠ ora.tempName)
    (hne : fname ≠ ora.tempName) :
    (cleanupTemp (setFile (fs ++ [⟨ora.tempName, false, 0⟩]) fname sz)
        ora).1 = setFile fs fname sz := by
  have hT1 : removeName [(⟨ora.tempName, false, 0⟩ : DirEntry)] fname =
      [⟨ora.tempName, false, 0⟩] := by
    simp [removeName, DirEntry.name_mk, Ne.symm hne]
  have hT2 : removeName [(⟨ora.tempName, false, 0⟩ : DirEntry)]
      ora.tempName = [] := by
    simp [removeName, DirEntry.name_mk]
  have hF : removeName [(⟨fname, true, sz⟩ : DirEntry)] ora.tempName =
      [⟨fname, true, sz⟩] := by
    simp [removeName, DirEntry.name_mk, hne]
  have hfs : removeName (removeName fs fname) ora.tempName =
      removeName fs fname := by
    apply removeName_of_all_ne
    intro ent hent
    exact hfresh ent (List.mem_filter.mp hent).1
  unfold cleanupTemp
  rw [hrm]
  simp only [Bool.false_eq_true, if_false, setFile, removeName_append,
    hT1, hT2, hF, hfs, List.append_nil, List.append_assoc, List.nil_append]

/-- Entry names never parse as the temp-prefixed names. -/
theorem dateFileName_ne_tempName {x : Date} (hx : x.Valid)
    (suf : List Char) : dateFileName x ≠ tempDirPfx ++ suf := by
  intro h
  have h1 : (dateFileName x).head? = some (digitChar (x.year / 1000)) := by
    rcases x with ⟨y, m, d⟩
    simp [dateFileName, dateBaseName, pad4]
  have h2 : (tempDirPfx ++ suf).head? = some 'e' := by
    simp [tempDirPfx]
  rw [h, h2] at h1
  have hk : x.year / 1000 < 10 := by
    obtain ⟨-, hb, -⟩ := hx
    omega
  have he : digitChar (x.year / 1000) = 'e' := by
    exact (Option.some.injEq _ _ ▸ h1.symm : _)
  revert he
  generalize x.year / 1000 = k at hk
  interval_cases k <;> decide

/-! ### Recoverable dates and whole-pass effects -/

/-- Date `d` is recoverable from the directory listing (member of the
skip set a fresh run would compute). -/
def hasDateFile (fs : FileSys) (d : Date) : Prop :=
  d ∈ _get_already_downloaded_dates fs

theorem hasDateFile_iff {fs : FileSys} {d : Date} :
    hasDateFile fs d ↔
      ∃ ent ∈ fs, ent.isFile = true ∧
        parseYMD (beforeDot ent.name) = some d := by
  unfold hasDateFile _get_already_downloaded_dates
  rw [List.mem_filterMap]
  constructor
  · rintro ⟨ent, hent, hpf⟩
    split at hpf
    · exact ⟨ent, hent, by assumption, hpf⟩
    · simp at hpf
  · rintro ⟨ent, hent, hf, hp⟩
    exact ⟨ent, hent, by rw [if_pos hf]; exact hp⟩

theorem hasDateFile_setFile_of {fs : FileSys} {d : Date} {n : List Char}
    {sz : Nat} (h : hasDateFile fs d) : hasDateFile (setFile fs n sz) d := by
  rw [hasDateFile_iff] at h ⊢
  obtain ⟨ent, hent, hf, hp⟩ := h
  by_cases he : ent.name = n
  · refine ⟨⟨n, true, sz⟩, by simp [setFile], rfl, ?_⟩
    rw [DirEntry.name_mk, ← he]
    exact hp
  · refine ⟨ent, ?_, hf, hp⟩
    unfold setFile removeName
    refine List.mem_append_left _ (List.mem_filter.mpr ⟨hent, ?_⟩)
    simp [he]

theorem hasDateFile_setFile_self {fs : FileSys} {d : Date} {n : List Char}
    {sz : Nat} (hp : parseYMD (beforeDot n) = some d) :
    hasDateFile (setFile fs n sz) d := by
  rw [hasDateFile_iff]
  exact ⟨⟨n, true, sz⟩, by simp [setFile], rfl, hp⟩

/-- The built-in default configuration passes validation unchanged (its
area is present and truthy). -/
theorem validate_default :
    _validate_download_config _get_default_download_config =
      .ok _get_default_download_config := rfl

/-- Same, in the shape taken by a `config=None` call. -/
theorem validate_default_none :
    _validate_download_config ((none : Option Config).getD
        _get_default_download_config) =
      .ok _get_default_download_config := rfl

/-- A pass over a range whose every date is in the skip set does nothing:
the listing is untouched and the trace is pure skips. -/
theorem runLoop_all_skipped {p : Pipeline} {ora : Date → DownloadOracle}
    {already : List Date} {fs : FileSys} {c e : Date}
    (hred : p.redownload = false)
    (hcov : ∀ d ∈ visitLoop c e, d ∈ already) :
    runLoop p ora already fs c e =
      (fs, (visitLoop c e).map Event.skipped) := by
  by_cases h : Date.le c e
  · have hcv : c ∈ already :=
      hcov c (by rw [visitLoop_pos h]; exact List.mem_cons_self _ _)
    have ih : runLoop p ora already fs (Date.nextDay c) e =
        (fs, (visitLoop (Date.nextDay c) e).map Event.skipped) :=
      runLoop_all_skipped hred
        (fun d hd => hcov d
          (by rw [visitLoop_pos h]; exact List.mem_cons_of_mem _ hd))
    rw [runLoop_skip h hcv hred, ih, visitLoop_pos h]
    simp
  · rw [runLoop_neg h, visitLoop_neg h]
    rfl
termination_by loopFuel c e
decreasing_by all_goals exact loopFuel_decr h

theorem netCalls_map_skipped (l : List Date) :
    netCalls (l.map Event.skipped) = 0 := by
  induction l with
  | nil => rfl
  | cons a l ih =>
    simpa [netCalls, List.countP_cons, isNetCall] using ih

/-- In debug mode no pass touches the listing or the network. -/
theorem runLoop_debug (p : Pipeline) (ora : Date → DownloadOracle)
    (already : List Date) (fs : FileSys) (c e : Date)
    (hd : p.debug = true) :
    (runLoop p ora already fs c e).1 = fs ∧
      netCalls (runLoop p ora already fs c e).2 = 0 := by
  by_cases h : Date.le c e
  · by_cases hsk : c ∈ already ∧ p.redownload = false
    · have ih := runLoop_debug p ora already fs (Date.nextDay c) e hd
      rw [runLoop_skip h hsk.1 hsk.2]
      exact ⟨ih.1, by simpa [netCalls, List.countP_cons, isNetCall] using ih.2⟩
    · have ih := runLoop_debug p ora already fs (Date.nextDay c) e hd
      rw [runLoop_dl h hsk, download_eq_debug hd]
      refine ⟨ih.1, ?_⟩
      show netCalls ([] ++ Event.processed c :: Event.archived c :: _) = 0
      simpa [netCalls, List.countP_cons, isNetCall] using ih.2
  · rw [runLoop_neg h]
    exact ⟨rfl, rfl⟩
termination_by loopFuel c e
decreasing_by all_goals exact loopFuel_decr h

/-- A debug pass with an empty skip set: nothing downloaded, but the
process/archive placeholders run for every visited date. -/
theorem runLoop_debug_noskip (p : Pipeline) (ora : Date → DownloadOracle)
    (fs : FileSys) (c e : Date) (hd : p.debug = true) :
    runLoop p ora [] fs c e =
      (fs, (visitLoop c e).flatMap
        (fun d => [Event.processed d, Event.archived d])) := by
  by_cases h : Date.le c e
  · have ih := runLoop_debug_noskip p ora fs (Date.nextDay c) e hd
    rw [runLoop_dl h (by simp), download_eq_debug hd, visitLoop_pos h]
    show ((runLoop p ora [] fs (Date.nextDay c) e).1,
        [] ++ Event.processed c :: Event.archived c ::
          (runLoop p ora [] fs (Date.nextDay c) e).2) = _
    rw [ih]
    simp
  · rw [runLoop_neg h, visitLoop_neg h]
    rfl
termination_by loopFuel c e
decreasing_by all_goals exact loopFuel_decr h

theorem flatMap_procarch_processed (l : List Date) :
    (l.flatMap (fun d => [Event.processed d, Event.archived d])).filterMap
        processedMark = l := by
  induction l with
  | nil => rfl
  | cons a l ih => simp [List.flatMap_cons, processedMark, ih]

theorem flatMap_procarch_archived (l : List Date) :
    (l.flatMap (fun d => [Event.processed d, Event.archived d])).filterMap
        archivedMark = l := by
  induction l with
  | nil => rfl
  | cons a l ih => simp [List.flatMap_cons, archivedMark, ih]

theorem flatMap_procarch_netCalls (l : List Date) :
    netCalls (l.flatMap (fun d => [Event.processed d, Event.archived d]))
      = 0 := by
  induction l with
  | nil => rfl
  | cons a l ih =>
    simpa [List.flatMap_cons, netCalls, List.countP_cons, isNetCall] using ih

/-- After a pass in which every attempted download succeeds with a fresh
temp name, every previously recoverable date is still recoverable and
every visited date becomes recoverable. -/
theorem runLoop_success_covers (p : Pipeline) (ora : Date → DownloadOracle)
    (already : List Date) (fs : FileSys) (c e : Date)
    (hdbg : p.debug = false)
    (hsucc : ∀ d, (ora d).retrieve = RetrieveOutcome.success)
    (hsz : ∀ d, ∃ sz, (ora d).fileAfter = some (sz + 1))
    (hrm : ∀ d, (ora d).rmtreeFails = false)
    (he : e.Valid) (hc : Date.le c e → c.Valid)
    (hfs : ∀ ent ∈ fs, ∀ d2, ent.name ≠ (ora d2).tempName)
    (hal : ∀ d, d ∈ already → hasDateFile fs d) :
    (∀ d, hasDateFile fs d →
      hasDateFile (runLoop p ora already fs c e).1 d) ∧
    (∀ d ∈ visitLoop c e,
      hasDateFile (runLoop p ora already fs c e).1 d) := by
  by_cases h : Date.le c e
  · have hcv : c.Valid := hc h
    by_cases hsk : c ∈ already ∧ p.redownload = false
    · have ih := runLoop_success_covers p ora already fs (Date.nextDay c) e
        hdbg hsucc hsz hrm he (fun hle => Date.nextDay_valid hcv he hle)
        hfs hal
      rw [runLoop_skip h hsk.1 hsk.2]
      refine ⟨fun d hd => ih.1 d hd, ?_⟩
      intro d hd
      rw [visitLoop_pos h] at hd
      rcases List.mem_cons.mp hd with rfl | hd
      · exact ih.1 d (hal d hsk.1)
      · exact ih.2 d hd
    · obtain ⟨sz, hszc⟩ := hsz c
      have hfreshc : ∀ ent ∈ fs, ent.name ≠ (ora c).tempName :=
        fun ent hent => hfs ent hent c
      have hnec : dateFileName c ≠ (ora c).tempName :=
        dateFileName_ne_tempName hcv ((ora c).tempSuffix)
      have hstep : (download_data_for_date p fs (ora c) c none).fs =
          setFile fs (dateFileName c) (sz + 1) := by
        rw [download_eq_success hdbg validate_default_none (hsucc c) hszc]
        exact download_fs_step (hrm c) hfreshc hnec
      have hfs1 : ∀ ent ∈ setFile fs (dateFileName c) (sz + 1), ∀ d2,
          ent.name ≠ (ora d2).tempName := by
        intro ent hent d2
        rcases List.mem_append.mp hent with hold | hnew
        · exact hfs ent (List.mem_filter.mp hold).1 d2
        · rcases List.mem_singleton.mp hnew with rfl
          rw [DirEntry.name_mk]
          exact dateFileName_ne_tempName hcv _
      have hal1 : ∀ d, d ∈ already →
          hasDateFile (setFile fs (dateFileName c) (sz + 1)) d :=
        fun d hd => hasDateFile_setFile_of (hal d hd)
      have ih := runLoop_success_covers p ora already
        (setFile fs (dateFileName c) (sz + 1)) (Date.nextDay c) e
        hdbg hsucc hsz hrm he (fun hle => Date.nextDay_valid hcv he hle)
        hfs1 hal1
      rw [runLoop_dl h hsk, hstep]
      refine ⟨fun d hd => ih.1 d (hasDateFile_setFile_of hd), ?_⟩
      intro d hd
      rw [visitLoop_pos h] at hd
      rcases List.mem_cons.mp hd with rfl | hd
      · exact ih.1 d (hasDateFile_setFile_self (parse_dateFileName hcv))
      · exact ih.2 d hd
  · rw [runLoop_neg h]
    refine ⟨fun d hd => hd, ?_⟩
    intro d hd
    rw [visitLoop_neg h] at hd
    simp at hd
termination_by loopFuel c e
decreasing_by all_goals exact loopFuel_decr h

/-! ### Claim theorems and concrete witnesses -/

/-- Sample oracle for concrete witnesses: a successful retrieval. -/
def sampleOracle : DownloadOracle :=
  { tempSuffix := "abc123".data, retrieve := .success,
    fileAfter := some 1024, rmtreeFails := false }

/-- Sample oracle whose client call raises. -/
def sampleRaisingOracle : DownloadOracle :=
  { tempSuffix := "zz9".data,
    retrieve := .raises "ConnectionError".data "timeout".data,
    fileAfter := none, rmtreeFails := false }

/-- Sample pipeline: real mode, no redownload. -/
def samplePipeline : Pipeline := { redownload := false, debug := false }

/-- Sample pipeline with the debug flag set. -/
def sampleDebugPipeline : Pipeline := { redownload := false, debug := true }

/-- A fixed model of the truncated current UTC date. -/
def sampleToday : Date := ⟨2025, 1, 20⟩

/-- Claim C2: date-range resolution follows the documented rule —
`fixed_date` alone gives `(fixed, fixed)`; `start_date` alone gives
`(start, today − 5 days)`, where `today` stands for the current UTC
date truncated to day granularity (`datetime.now(timezone.utc).date()`)
and the subtraction is exactly five calendar days; `end_date` alone
gives `(1940-01-01, end)`; both give `(start, end)` unchanged. -/
theorem claim2_date_range_rule (s e f today : Date) :
    _get_start_and_end_dates none none (some f) today = some (f, f) ∧
    _get_start_and_end_dates (some s) none none today =
      some (s, today.subDays 5) ∧
    _get_start_and_end_dates none (some e) none today =
      some (⟨1940, 1, 1⟩, e) ∧
    _get_start_and_end_dates (some s) (some e) none today = some (s, e) :=
  ⟨rfl, rfl, rfl, rfl⟩

/-- Claim C9: when both `start_date` and `fixed_date` are supplied (a
combination the assertions accept), `fixed_date` takes precedence: the
resolution is `(fixed, fixed)`, the run coincides with the run that got
no `start_date`, and exactly `fixed_date` is visited. -/
theorem claim9_fixed_date_precedence (p : Pipeline) (fs : FileSys)
    (ora : Date → DownloadOracle) (today s f : Date) :
    _get_start_and_end_dates (some s) none (some f) today = some (f, f) ∧
    process_and_archive_daily_data p fs ora today (some s) none (some f) =
      process_and_archive_daily_data p fs ora today none none (some f) ∧
    ∃ out, process_and_archive_daily_data p fs ora today (some s) none
        (some f) = .ok out ∧ visitedDates out.2 = [f] := by
  have e1 : _get_start_and_end_dates (some s) none (some f) today =
      some (f, f) := rfl
  have e2 : _get_start_and_end_dates none none (some f) today =
      some (f, f) := rfl
  refine ⟨rfl, ?_, ?_⟩
  · rw [run_eq_ok (by simp) (by simp) e1, run_eq_ok (by simp) (by simp) e2]
  · refine ⟨_, run_eq_ok (by simp) (by simp) e1, ?_⟩
    rw [runLoop_visitedDates, visitLoop_self]

/-- Claim C6: the run fails fast with the ConfigurationError kind (an
assertion raised before the directory is listed and before any
iteration — the error value carries no state or trace) exactly when no
date argument value is supplied, or when both `end_date` and
`fixed_date` are; every other combination proceeds to a normal run. -/
theorem claim6_contract_fail_fast (p : Pipeline) (fs : FileSys)
    (ora : Date → DownloadOracle) (today : Date) (sd ed fd : Option Date) :
    (sd = none ∧ ed = none ∧ fd = none →
      process_and_archive_daily_data p fs ora today sd ed fd =
        .error (.configurationError
          "At least one of start_date, end_date, or fixed_date must be provided.".data)) ∧
    (ed.isSome ∧ fd.isSome →
      process_and_archive_daily_data p fs ora today sd ed fd =
        .error (.configurationError
          "Provide either end_date or fixed_date, not both.".data)) ∧
    ((sd.isSome ∨ ed.isSome ∨ fd.isSome) → ¬ (ed.isSome ∧ fd.isSome) →
      ∃ out, process_and_archive_daily_data p fs ora today sd ed fd =
        .ok out) := by
  refine ⟨?_, ?_, ?_⟩
  · rintro ⟨rfl, rfl, rfl⟩
    rfl
  · rintro ⟨he, hf⟩
    unfold process_and_archive_daily_data
    rw [if_neg (not_not_intro (Or.inr (Or.inl he))), if_pos ⟨he, hf⟩]
  · intro h1 h2
    obtain ⟨⟨s1, e1⟩, hres⟩ :=
      Option.isSome_iff_exists.mp (resolve_isSome h1 h2)
    exact ⟨_, run_eq_ok h1 h2 hres⟩

/-- Concrete check of claim C6 at explicit inputs. -/
theorem claim6_contract_fail_fast_witness :
    ∃ out, process_and_archive_daily_data samplePipeline []
      (fun _ => sampleOracle) sampleToday (some ⟨2024, 12, 1⟩) none none =
        .ok out :=
  (claim6_contract_fail_fast samplePipeline [] (fun _ => sampleOracle)
    sampleToday (some ⟨2024, 12, 1⟩) none none).2.2 (by simp) (by simp)

/-- Claim C7: with the debug flag set at construction, every download
performs no network call, returns None immediately and leaves the
listing unchanged; a debug run over a range with an empty output
directory still invokes the process and archive placeholders once per
visited date (the visited dates being exactly the interval, without
repeats) while creating no files and making no network calls. -/
theorem claim7_debug_mode (p : Pipeline) (ora : Date → DownloadOracle)
    (today s e : Date) (hd : p.debug = true) (hs : s.Valid) (he : e.Valid) :
    (∀ fs orad target cfg?,
      download_data_for_date p fs orad target cfg? = ⟨none, fs, [], cfg?⟩) ∧
    ∃ tr, process_and_archive_daily_data p [] ora today (some s) (some e)
        none = .ok ([], tr) ∧
      tr.filterMap processedMark = visitLoop s e ∧
      tr.filterMap archivedMark = visitLoop s e ∧
      (∀ d, d ∈ visitLoop s e ↔ d.Valid ∧ Date.le s d ∧ Date.le d e) ∧
      (visitLoop s e).Pairwise Date.lt ∧
      netCalls tr = 0 := by
  refine ⟨fun fs orad target cfg? =>
    download_eq_debug hd fs orad target cfg?, ?_⟩
  have hrun : process_and_archive_daily_data p [] ora today (some s)
      (some e) none =
      .ok (runLoop p ora (_get_already_downloaded_dates []) [] s e) :=
    run_eq_ok (by simp) (by simp) rfl
  have h0 : runLoop p ora (_get_already_downloaded_dates ([] : FileSys))
      [] s e =
      ([], (visitLoop s e).flatMap
        (fun d => [Event.processed d, Event.archived d])) :=
    runLoop_debug_noskip p ora [] s e hd
  rw [h0] at hrun
  refine ⟨_, hrun, flatMap_procarch_processed _, flatMap_procarch_archived _,
    fun d => visitLoop_mem hs he d, visitLoop_pairwise hs he,
    flatMap_procarch_netCalls _⟩

/-- Concrete check of claim C7 on the spec's example scenario:
2024-12-01 through 2024-12-05, empty directory, debug on. -/
theorem claim7_debug_mode_witness :
    (∀ fs orad target cfg?,
      download_data_for_date sampleDebugPipeline fs orad target cfg? =
        ⟨none, fs, [], cfg?⟩) ∧
    ∃ tr, process_and_archive_daily_data sampleDebugPipeline []
        (fun _ => sampleOracle) sampleToday (some ⟨2024, 12, 1⟩)
        (some ⟨2024, 12, 5⟩) none = .ok ([], tr) ∧
      tr.filterMap processedMark = visitLoop ⟨2024, 12, 1⟩ ⟨2024, 12, 5⟩ ∧
      tr.filterMap archivedMark = visitLoop ⟨2024, 12, 1⟩ ⟨2024, 12, 5⟩ ∧
      (∀ d, d ∈ visitLoop ⟨2024, 12, 1⟩ ⟨2024, 12, 5⟩ ↔
        d.Valid ∧ Date.le ⟨2024, 12, 1⟩ d ∧ Date.le d ⟨2024, 12, 5⟩) ∧
      (visitLoop ⟨2024, 12, 1⟩ ⟨2024, 12, 5⟩).Pairwise Date.lt ∧
      netCalls tr = 0 :=
  claim7_debug_mode sampleDebugPipeline (fun _ => sampleOracle) sampleToday
    ⟨2024, 12, 1⟩ ⟨2024, 12, 5⟩ rfl (by decide) (by decide)

/-- Claim C1: for every resolved pair `(s, e)` accepted by the argument
contract, the run succeeds and visits exactly the closed calendar
interval `[s, e]`: membership is the interval, the visit order is
strictly ascending (no repeats), consecutive visits are one calendar day
apart (no gaps), and nothing is visited when `s > e`. -/
theorem claim1_visits_closed_interval (p : Pipeline) (fs : FileSys)
    (ora : Date → DownloadOracle) (today : Date) (sd ed fd : Option Date)
    (s e : Date) (hs : s.Valid) (he : e.Valid)
    (h1 : sd.isSome ∨ ed.isSome ∨ fd.isSome)
    (h2 : ¬ (ed.isSome ∧ fd.isSome))
    (hres : _get_start_and_end_dates sd ed fd today = some (s, e)) :
    ∃ out, process_and_archive_daily_data p fs ora today sd ed fd =
        .ok out ∧
      (∀ d, d ∈ visitedDates out.2 ↔ d.Valid ∧ Date.le s d ∧ Date.le d e) ∧
      (visitedDates out.2).Pairwise Date.lt ∧
      (visitedDates out.2).Chain' (fun a b => b = Date.nextDay a) ∧
      (¬ Date.le s e → visitedDates out.2 = []) := by
  refine ⟨_, run_eq_ok h1 h2 hres, ?_, ?_, ?_, ?_⟩ <;>
    rw [runLoop_visitedDates]
  · exact fun d => visitLoop_mem hs he d
  · exact visitLoop_pairwise hs he
  · exact visitLoop_chain s e
  · exact fun h => visitLoop_neg h

/-- Concrete check of claim C1 at explicit inputs. -/
theorem claim1_visits_closed_interval_witness :
    ∃ out, process_and_archive_daily_data samplePipeline []
        (fun _ => sampleOracle) sampleToday (some ⟨2024, 12, 1⟩)
        (some ⟨2024, 12, 3⟩) none = .ok out ∧
      (∀ d, d ∈ visitedDates out.2 ↔
        d.Valid ∧ Date.le ⟨2024, 12, 1⟩ d ∧ Date.le d ⟨2024, 12, 3⟩) ∧
      (visitedDates out.2).Pairwise Date.lt ∧
      (visitedDates out.2).Chain' (fun a b => b = Date.nextDay a) ∧
      (¬ Date.le ⟨2024, 12, 1⟩ ⟨2024, 12, 3⟩ → visitedDates out.2 = []) :=
  claim1_visits_closed_interval samplePipeline [] (fun _ => sampleOracle)
    sampleToday (some ⟨2024, 12, 1⟩) (some ⟨2024, 12, 3⟩) none
    ⟨2024, 12, 1⟩ ⟨2024, 12, 3⟩ (by decide) (by decide) (by simp) (by simp)
    rfl

/-- Claim C3: an exception of any kind raised by the external client is
caught and becomes a None result — the download operation has no
exception outcome at all; under the date-argument contract the whole run
returns normally whatever the per-date oracles do (only the assertion
path, the ConfigurationError kind, can fail it), and the visited dates
are identical across any two oracle families, so a per-date failure
never stops the loop from proceeding to the next date. -/
theorem claim3_exceptions_contained (p : Pipeline) (fs : FileSys)
    (ora ora2 : Date → DownloadOracle) (orad : DownloadOracle)
    (today target : Date) (cfg? : Option Config) (k msg : List Char)
    (sd ed fd : Option Date)
    (hk : orad.retrieve = .raises k msg)
    (h1 : sd.isSome ∨ ed.isSome ∨ fd.isSome)
    (h2 : ¬ (ed.isSome ∧ fd.isSome)) :
    (download_data_for_date p fs orad target cfg?).result = none ∧
    (∃ out, process_and_archive_daily_data p fs ora today sd ed fd =
      .ok out) ∧
    (∀ out1 out2,
      process_and_archive_daily_data p fs ora today sd ed fd = .ok out1 →
      process_and_archive_daily_data p fs ora2 today sd ed fd = .ok out2 →
      visitedDates out1.2 = visitedDates out2.2) := by
  refine ⟨?_, ?_, ?_⟩
  · by_cases hd : p.debug = true
    · rw [download_eq_debug hd]
    · have hd' : p.debug = false := by
        revert hd; cases p.debug <;> simp
      rcases hv : _validate_download_config
          (cfg?.getD _get_default_download_config) with m | c1
      · rw [download_eq_invalid hd' hv]
      · rw [download_eq_raises hd' hv hk]
  · obtain ⟨⟨s1, e1⟩, hres⟩ :=
      Option.isSome_iff_exists.mp (resolve_isSome h1 h2)
    exact ⟨_, run_eq_ok h1 h2 hres⟩
  · intro out1 out2 hh1 hh2
    obtain ⟨⟨s1, e1⟩, hres⟩ :=
      Option.isSome_iff_exists.mp (resolve_isSome h1 h2)
    rw [run_eq_ok h1 h2 hres] at hh1 hh2
    injection hh1 with hh1
    injection hh2 with hh2
    rw [← hh1, ← hh2, runLoop_visitedDates, runLoop_visitedDates]

/-- Concrete check of claim C3 at explicit inputs. -/
theorem claim3_exceptions_contained_witness :
    (download_data_for_date samplePipeline [] sampleRaisingOracle
      ⟨2024, 12, 1⟩ none).result = none ∧
    (∃ out, process_and_archive_daily_data samplePipeline []
      (fun _ => sampleRaisingOracle) sampleToday (some ⟨2024, 12, 1⟩)
      (some ⟨2024, 12, 2⟩) none = .ok out) ∧
    (∀ out1 out2,
      process_and_archive_daily_data samplePipeline []
        (fun _ => sampleRaisingOracle) sampleToday (some ⟨2024, 12, 1⟩)
        (some ⟨2024, 12, 2⟩) none = .ok out1 →
      process_and_archive_daily_data samplePipeline []
        (fun _ => sampleOracle) sampleToday (some ⟨2024, 12, 1⟩)
        (some ⟨2024, 12, 2⟩) none = .ok out2 →
      visitedDates out1.2 = visitedDates out2.2) :=
  claim3_exceptions_contained samplePipeline []
    (fun _ => sampleRaisingOracle) (fun _ => sampleOracle)
    sampleRaisingOracle sampleToday ⟨2024, 12, 1⟩ none
    "ConnectionError".data "timeout".data (some ⟨2024, 12, 1⟩)
    (some ⟨2024, 12, 2⟩) none rfl (by simp) (by simp)

/-! ### Validation characterization (claims C8, C10) -/

/-- Spec-side reading of a passing required field: the key holds a
non-empty list value. -/
def NonEmptyListField (cfg : Config) (k : List Char) : Prop :=
  ∃ xs, dictFind cfg k = some (PyVal.vlist xs) ∧ xs ≠ []

/-- Spec-side reading of a failing area: a present, truthy area value
that is not a 4-element list. -/
def BadPresentArea (cfg : Config) : Prop :=
  ∃ v, dictFind cfg "area".data = some v ∧ truthy v = true ∧
    ¬ ∃ xs, v = PyVal.vlist xs ∧ xs.length = 4

theorem validListField_iff {cfg : Config} {k : List Char} :
    validListField cfg k = true ↔ NonEmptyListField cfg k := by
  unfold validListField NonEmptyListField
  rcases h : dictFind cfg k with _ | v
  · simp
  · rcases v <;> simp [List.isEmpty_iff]

theorem truthy_getD_area {cfg : Config} :
    truthy (dictGetD cfg "area".data (.vbool false)) = true ↔
      ∃ v, dictFind cfg "area".data = some v ∧ truthy v = true := by
  unfold dictGetD
  rcases h : dictFind cfg "area".data with _ | v <;> simp [truthy]

theorem validAreaField_iff {cfg : Config} :
    validAreaField cfg = true ↔
      ∃ xs, dictFind cfg "area".data = some (PyVal.vlist xs) ∧
        xs.length = 4 := by
  unfold validAreaField
  rcases h : dictFind cfg "area".data with _ | v
  · simp
  · rcases v <;> simp

theorem validAreaField_dictSet (cfg : Config) :
    validAreaField (dictSet cfg "area".data globalArea) = true := by
  rw [validAreaField_iff]
  refine ⟨[.vint 90, .vint (-180), .vint (-90), .vint 180], ?_, rfl⟩
  rw [dictFind_dictSet_self]
  rfl

theorem requiredKeysPresent_of {cfg : Config}
    (h1 : NonEmptyListField cfg "variable".data)
    (h2 : NonEmptyListField cfg "pressure_level".data)
    (h3 : NonEmptyListField cfg "time".data) :
    requiredKeysPresent cfg = true := by
  obtain ⟨x1, hf1, -⟩ := h1
  obtain ⟨x2, hf2, -⟩ := h2
  obtain ⟨x3, hf3, -⟩ := h3
  unfold requiredKeysPresent
  rw [hf1, hf2, hf3]
  rfl

/-- Zeta-expanded form of the validator (lines 181-209). -/
theorem validate_unfold (cfg : Config) :
    _validate_download_config cfg =
      if !requiredKeysPresent cfg then
        .error "Missing required config keys".data
      else if !validListField cfg "variable".data then
        .error "variable must be a non-empty list".data
      else if !validListField cfg "pressure_level".data then
        .error "pressure_level must be a non-empty list".data
      else if !validListField cfg "time".data then
        .error "time must be a non-empty list".data
      else if !validAreaField
          (if !truthy (dictGetD cfg "area".data (.vbool false)) then
            dictSet cfg "area".data globalArea
          else cfg) then
        .error "area must be a list of 4 values [North, West, South, East]".data
      else
        .ok (if !truthy (dictGetD cfg "area".data (.vbool false)) then
          dictSet cfg "area".data globalArea
        else cfg) :=
  rfl

/-- Absent or falsy area: the passing validator writes the global
bounding box into the dict. -/
theorem validate_defaults_area {cfg : Config}
    (h1 : validListField cfg "variable".data = true)
    (h2 : validListField cfg "pressure_level".data = true)
    (h3 : validListField cfg "time".data = true)
    (hT : truthy (dictGetD cfg "area".data (.vbool false)) = false) :
    _validate_download_config cfg =
      .ok (dictSet cfg "area".data globalArea) := by
  have hreq : requiredKeysPresent cfg = true :=
    requiredKeysPresent_of (validListField_iff.mp h1)
      (validListField_iff.mp h2) (validListField_iff.mp h3)
  have harea : (if !truthy (dictGetD cfg "area".data (.vbool false)) then
      dictSet cfg "area".data globalArea else cfg) =
      dictSet cfg "area".data globalArea := by
    rw [hT]
    rfl
  rw [validate_unfold, harea,
    if_neg (by rw [hreq]; decide), if_neg (by rw [h1]; decide),
    if_neg (by rw [h2]; decide), if_neg (by rw [h3]; decide),
    if_neg (by rw [validAreaField_dictSet]; decide)]

/-- The validator succeeds exactly when the three required fields hold
non-empty lists and no truthy non-4-list area is present. -/
theorem validate_ok_iff {cfg : Config} :
    (∃ c1, _validate_download_config cfg = .ok c1) ↔
      (NonEmptyListField cfg "variable".data ∧
       NonEmptyListField cfg "pressure_level".data ∧
       NonEmptyListField cfg "time".data ∧
       ¬ BadPresentArea cfg) := by
  constructor
  · rintro ⟨c1, hok⟩
    rw [validate_unfold] at hok
    split_ifs at hok with hA hB hC hD hT hE hF
    any_goals cases hok
    · -- area absent or falsy: it was defaulted, and the check passed
      have hB' : validListField cfg "variable".data = true := by
        revert hB; cases validListField cfg "variable".data <;> simp
      have hC' : validListField cfg "pressure_level".data = true := by
        revert hC; cases validListField cfg "pressure_level".data <;> simp
      have hD' : validListField cfg "time".data = true := by
        revert hD; cases validListField cfg "time".data <;> simp
      have hT' : truthy (dictGetD cfg "area".data (.vbool false)) =
          false := by
        revert hT
        cases truthy (dictGetD cfg "area".data (.vbool false)) <;> simp
      refine ⟨validListField_iff.mp hB', validListField_iff.mp hC',
        validListField_iff.mp hD', ?_⟩
      rintro ⟨v, hfind, htr, -⟩
      have h2 := truthy_getD_area.mpr ⟨v, hfind, htr⟩
      rw [hT'] at h2
      exact absurd h2 (by simp)
    · -- area supplied truthy, and the check passed
      have hB' : validListField cfg "variable".data = true := by
        revert hB; cases validListField cfg "variable".data <;> simp
      have hC' : validListField cfg "pressure_level".data = true := by
        revert hC; cases validListField cfg "pressure_level".data <;> simp
      have hD' : validListField cfg "time".data = true := by
        revert hD; cases validListField cfg "time".data <;> simp
      have hF' : validAreaField cfg = true := by
        revert hF; cases validAreaField cfg <;> simp
      refine ⟨validListField_iff.mp hB', validListField_iff.mp hC',
        validListField_iff.mp hD', ?_⟩
      obtain ⟨xs, hxs, hlen⟩ := validAreaField_iff.mp hF'
      rintro ⟨v, hfind, htr, hno⟩
      rw [hxs] at hfind
      injection hfind with hv
      exact hno ⟨xs, hv.symm, hlen⟩
  · rintro ⟨hn1, hn2, hn3, hnb⟩
    have h1' := validListField_iff.mpr hn1
    have h2' := validListField_iff.mpr hn2
    have h3' := validListField_iff.mpr hn3
    have hreq := requiredKeysPresent_of hn1 hn2 hn3
    rcases hT : truthy (dictGetD cfg "area".data (.vbool false))
      with _ | _
    · exact ⟨dictSet cfg "area".data globalArea,
        validate_defaults_area h1' h2' h3' hT⟩
    · obtain ⟨v, hfind, htr⟩ := truthy_getD_area.mp hT
      have hA : validAreaField cfg = true := by
        rw [validAreaField_iff]
        by_cases hvl : ∃ xs, v = PyVal.vlist xs ∧ xs.length = 4
        · obtain ⟨xs, rfl, hlen⟩ := hvl
          exact ⟨xs, hfind, hlen⟩
        · exact absurd ⟨v, hfind, htr, hvl⟩ hnb
      have harea : (if !truthy (dictGetD cfg "area".data (.vbool false))
          then dictSet cfg "area".data globalArea else cfg) = cfg := by
        rw [hT]
        rfl
      refine ⟨cfg, ?_⟩
      rw [validate_unfold, harea,
        if_neg (by rw [hreq]; decide), if_neg (by rw [h1']; decide),
        if_neg (by rw [h2']; decide), if_neg (by rw [h3']; decide),
        if_neg (by rw [hA]; decide)]

/-- The caller-visible config after a non-debug download that validated
successfully: the same dict object, as mutated by validation. -/
theorem download_configAfter {p : Pipeline} {cfg? : Option Config}
    {c1 : Config} (hd : p.debug = false)
    (hv : _validate_download_config
      (cfg?.getD _get_default_download_config) = .ok c1)
    (fs : FileSys) (orad : DownloadOracle) (target : Date) :
    (download_data_for_date p fs orad target cfg?).configAfter =
      cfg?.map (fun _ => c1) := by
  rcases hr : orad.retrieve with _ | ⟨k, m⟩
  · rcases hf : orad.fileAfter with _ | sz
    · rw [download_eq_badfile hd hv hr (Or.inl hf)]
    · rcases sz with _ | sz
      · rw [download_eq_badfile hd hv hr (Or.inr hf)]
      · rw [download_eq_success hd hv hr hf]
  · rw [download_eq_raises hd hv hr]

/-- Claim C8: download-configuration validation fails exactly when one
of the required fields (variable, pressure_level, time) is missing or
not a non-empty list, or a present truthy area is not a 4-element list;
an absent or falsy area is replaced in the returned dict by the global
box [90, -180, -90, 180]; and a validation failure makes the download
return None without raising to the caller. -/
theorem claim8_config_validation (cfg : Config) (p : Pipeline)
    (fs : FileSys) (orad : DownloadOracle) (target : Date)
    (hdbg : p.debug = false) :
    ((∃ msg, _validate_download_config cfg = .error msg) ↔
      (¬ NonEmptyListField cfg "variable".data ∨
       ¬ NonEmptyListField cfg "pressure_level".data ∨
       ¬ NonEmptyListField cfg "time".data ∨
       BadPresentArea cfg)) ∧
    (truthy (dictGetD cfg "area".data (.vbool false)) = false →
      ∀ c1, _validate_download_config cfg = .ok c1 →
        dictFind c1 "area".data = some globalArea) ∧
    (∀ msg, _validate_download_config cfg = .error msg →
      (download_data_for_date p fs orad target (some cfg)).result =
        none) := by
  refine ⟨?_, ?_, ?_⟩
  · have hdich : (∃ msg, _validate_download_config cfg = .error msg) ↔
        ¬ (∃ c1, _validate_download_config cfg = .ok c1) := by
      rcases h : _validate_download_config cfg with m | c
      · constructor
        · rintro - ⟨c1, hc⟩
          exact Except.noConfusion hc
        · intro h2
          exact ⟨m, rfl⟩
      · constructor
        · rintro ⟨msg, hmsg⟩ -
          exact Except.noConfusion hmsg
        · intro hn
          exact absurd ⟨c, rfl⟩ hn
    rw [hdich, validate_ok_iff]
    tauto
  · intro hT c1 hok
    obtain ⟨hn1, hn2, hn3, -⟩ := validate_ok_iff.mp ⟨c1, hok⟩
    have := validate_defaults_area (validListField_iff.mpr hn1)
      (validListField_iff.mpr hn2) (validListField_iff.mpr hn3) hT
    rw [this] at hok
    injection hok with h
    rw [← h, dictFind_dictSet_self]
  · intro msg hmsg
    have hm : _validate_download_config
        ((some cfg).getD _get_default_download_config) = .error msg := hmsg
    rw [download_eq_invalid hdbg hm]

/-- Sample config without an area field, used by the witnesses. -/
def sampleConfigNoArea : Config :=
  [("variable".data, .vlist [.vstr "relative_humidity".data]),
   ("pressure_level".data, .vlist [.vstr "500".data]),
   ("time".data, .vlist [.vstr "00:00".data])]

/-- Concrete check of claim C8 at explicit inputs. -/
theorem claim8_config_validation_witness :
    ((∃ msg, _validate_download_config sampleConfigNoArea = .error msg) ↔
      (¬ NonEmptyListField sampleConfigNoArea "variable".data ∨
       ¬ NonEmptyListField sampleConfigNoArea "pressure_level".data ∨
       ¬ NonEmptyListField sampleConfigNoArea "time".data ∨
       BadPresentArea sampleConfigNoArea)) ∧
    (truthy (dictGetD sampleConfigNoArea "area".data (.vbool false)) =
        false →
      ∀ c1, _validate_download_config sampleConfigNoArea = .ok c1 →
        dictFind c1 "area".data = some globalArea) ∧
    (∀ msg, _validate_download_config sampleConfigNoArea = .error msg →
      (download_data_for_date samplePipeline [] sampleOracle ⟨2024, 12, 1⟩
        (some sampleConfigNoArea)).result = none) :=
  claim8_config_validation sampleConfigNoArea samplePipeline []
    sampleOracle ⟨2024, 12, 1⟩ rfl

/-- Claim C10: the download operation mutates the caller-supplied config
dict in place — with an absent or falsy area, after the call the
caller's dict is the original with the global box written under "area"
(hence a changed object), and every other key is untouched by
validation. -/
theorem claim10_config_mutated_in_place (p : Pipeline) (fs : FileSys)
    (orad : DownloadOracle) (target : Date) (cfg : Config)
    (hdbg : p.debug = false)
    (h1 : validListField cfg "variable".data = true)
    (h2 : validListField cfg "pressure_level".data = true)
    (h3 : validListField cfg "time".data = true)
    (hT : truthy (dictGetD cfg "area".data (.vbool false)) = false) :
    (download_data_for_date p fs orad target (some cfg)).configAfter =
      some (dictSet cfg "area".data globalArea) ∧
    dictFind (dictSet cfg "area".data globalArea) "area".data =
      some globalArea ∧
    (∀ k, k ≠ "area".data →
      dictFind (dictSet cfg "area".data globalArea) k = dictFind cfg k) ∧
    (download_data_for_date p fs orad target (some cfg)).configAfter ≠
      some cfg := by
  have hv : _validate_download_config ((some cfg).getD
      _get_default_download_config) =
      .ok (dictSet cfg "area".data globalArea) :=
    validate_defaults_area h1 h2 h3 hT
  have hca := download_configAfter hdbg hv fs orad target
  refine ⟨hca, dictFind_dictSet_self cfg _ _,
    fun k hk => dictFind_dictSet_other cfg _ k _ hk, ?_⟩
  rw [hca]
  intro hcontra
  have heq : dictSet cfg "area".data globalArea = cfg := by
    simpa using hcontra
  have hfind : dictFind cfg "area".data = some globalArea := by
    rw [← heq, dictFind_dictSet_self]
  unfold dictGetD at hT
  rw [hfind] at hT
  simp [truthy, globalArea] at hT

/-- Concrete check of claim C10 at explicit inputs. -/
theorem claim10_config_mutated_in_place_witness :
    (download_data_for_date samplePipeline [] sampleOracle ⟨2024, 12, 1⟩
      (some sampleConfigNoArea)).configAfter =
      some (dictSet sampleConfigNoArea "area".data globalArea) ∧
    dictFind (dictSet sampleConfigNoArea "area".data globalArea)
      "area".data = some globalArea ∧
    (∀ k, k ≠ "area".data →
      dictFind (dictSet sampleConfigNoArea "area".data globalArea) k =
        dictFind sampleConfigNoArea k) ∧
    (download_data_for_date samplePipeline [] sampleOracle ⟨2024, 12, 1⟩
      (some sampleConfigNoArea)).configAfter ≠ some sampleConfigNoArea :=
  claim10_config_mutated_in_place samplePipeline [] sampleOracle
    ⟨2024, 12, 1⟩ sampleConfigNoArea rfl rfl rfl rfl rfl

/-! ### Claim C4: post-condition check and scoped cleanup -/

theorem cleanupTemp_of_ok {ora : DownloadOracle} (fs : FileSys)
    (h : ora.rmtreeFails = false) :
    cleanupTemp fs ora =
      (removeName fs ora.tempName, [Event.rmTemp ora.tempName]) := by
  unfold cleanupTemp
  rw [h]
  rfl

theorem cleanupTemp_events (fs : FileSys) (ora : DownloadOracle) :
    (cleanupTemp fs ora).2 = [Event.rmTemp ora.tempName] ∨
    (cleanupTemp fs ora).2 = [Event.rmTempWarn ora.tempName] := by
  unfold cleanupTemp
  split
  · exact Or.inr rfl
  · exact Or.inl rfl

theorem netCalls_attempt (n : List Char) (t : Date) (tail : List Event)
    (h : tail = [Event.rmTemp n] ∨ tail = [Event.rmTempWarn n]) :
    netCalls ([Event.mkTemp n, Event.netCall t] ++ tail) = 1 := by
  rcases h with rfl | rfl <;>
    simp [netCalls, List.countP_cons, isNetCall]

theorem netCalls_attempt_moved (n fn : List Char) (t : Date)
    (tail : List Event)
    (h : tail = [Event.rmTemp n] ∨ tail = [Event.rmTempWarn n]) :
    netCalls ([Event.mkTemp n, Event.netCall t, Event.moved fn] ++ tail)
      = 1 := by
  rcases h with rfl | rfl <;>
    simp [netCalls, List.countP_cons, isNetCall]

/-- Claim C4: in a non-debug attempt with a valid configuration, a
successful external call whose output file is missing or empty yields
None; every attempt makes exactly one retrieval call (no retry); when
`rmtree` succeeds the temp-dir removal is the last event of the attempt
and no entry with the temp name remains in the listing; and on the
validation-failure exit no temporary directory is ever created, so the
attempt leaves the listing untouched. -/
theorem claim4_empty_file_and_cleanup (p : Pipeline) (fs : FileSys)
    (orad : DownloadOracle) (target : Date) (cfg? : Option Config)
    (c1 : Config) (hdbg : p.debug = false)
    (hv : _validate_download_config
      (cfg?.getD _get_default_download_config) = .ok c1) :
    (orad.retrieve = RetrieveOutcome.success →
      (orad.fileAfter = none ∨ orad.fileAfter = some 0) →
      (download_data_for_date p fs orad target cfg?).result = none) ∧
    netCalls (download_data_for_date p fs orad target cfg?).events = 1 ∧
    (orad.rmtreeFails = false →
      ((download_data_for_date p fs orad target cfg?).events).getLast? =
        some (Event.rmTemp orad.tempName) ∧
      orad.tempName ∉
        entryNames (download_data_for_date p fs orad target cfg?).fs) ∧
    (∀ cfg2 msg,
      _validate_download_config
        (cfg2.getD _get_default_download_config) = .error msg →
      download_data_for_date p fs orad target cfg2 =
        ⟨none, fs, [], cfg2⟩) := by
  refine ⟨?_, ?_, ?_, ?_⟩
  · intro hr hf
    rw [download_eq_badfile hdbg hv hr hf]
  · rcases hr : orad.retrieve with _ | ⟨k, m⟩
    · rcases hf : orad.fileAfter with _ | sz
      · rw [download_eq_badfile hdbg hv hr (Or.inl hf)]
        exact netCalls_attempt _ _ _ (cleanupTemp_events _ orad)
      · rcases sz with _ | sz
        · rw [download_eq_badfile hdbg hv hr (Or.inr hf)]
          exact netCalls_attempt _ _ _ (cleanupTemp_events _ orad)
        · rw [download_eq_success hdbg hv hr hf]
          exact netCalls_attempt_moved _ _ _ _ (cleanupTemp_events _ orad)
    · rw [download_eq_raises hdbg hv hr]
      exact netCalls_attempt _ _ _ (cleanupTemp_events _ orad)
  · intro hrmf
    rcases hr : orad.retrieve with _ | ⟨k, m⟩
    · rcases hf : orad.fileAfter with _ | sz
      · rw [download_eq_badfile hdbg hv hr (Or.inl hf),
          cleanupTemp_of_ok _ hrmf]
        exact ⟨rfl, not_mem_entryNames_removeName _ _⟩
      · rcases sz with _ | sz
        · rw [download_eq_badfile hdbg hv hr (Or.inr hf),
            cleanupTemp_of_ok _ hrmf]
          exact ⟨rfl, not_mem_entryNames_removeName _ _⟩
        · rw [download_eq_success hdbg hv hr hf, cleanupTemp_of_ok _ hrmf]
          exact ⟨rfl, not_mem_entryNames_removeName _ _⟩
    · rw [download_eq_raises hdbg hv hr, cleanupTemp_of_ok _ hrmf]
      exact ⟨rfl, not_mem_entryNames_removeName _ _⟩
  · intro cfg2 msg hmsg
    exact download_eq_invalid hdbg hmsg fs orad target

/-- Sample oracle: call succeeds but the file comes out empty. -/
def sampleEmptyFileOracle : DownloadOracle :=
  { tempSuffix := "q1".data, retrieve := .success,
    fileAfter := some 0, rmtreeFails := false }

/-- Concrete check of claim C4 at explicit inputs. -/
theorem claim4_empty_file_and_cleanup_witness :
    (sampleEmptyFileOracle.retrieve = RetrieveOutcome.success →
      (sampleEmptyFileOracle.fileAfter = none ∨
        sampleEmptyFileOracle.fileAfter = some 0) →
      (download_data_for_date samplePipeline [] sampleEmptyFileOracle
        ⟨2024, 12, 1⟩ none).result = none) ∧
    netCalls (download_data_for_date samplePipeline [] sampleEmptyFileOracle
      ⟨2024, 12, 1⟩ none).events = 1 ∧
    (sampleEmptyFileOracle.rmtreeFails = false →
      ((download_data_for_date samplePipeline [] sampleEmptyFileOracle
          ⟨2024, 12, 1⟩ none).events).getLast? =
        some (Event.rmTemp sampleEmptyFileOracle.tempName) ∧
      sampleEmptyFileOracle.tempName ∉
        entryNames (download_data_for_date samplePipeline []
          sampleEmptyFileOracle ⟨2024, 12, 1⟩ none).fs) ∧
    (∀ cfg2 msg,
      _validate_download_config
        (cfg2.getD _get_default_download_config) = .error msg →
      download_data_for_date samplePipeline [] sampleEmptyFileOracle
        ⟨2024, 12, 1⟩ cfg2 = ⟨none, [], [], cfg2⟩) :=
  claim4_empty_file_and_cleanup samplePipeline [] sampleEmptyFileOracle
    ⟨2024, 12, 1⟩ none _get_default_download_config rfl
    validate_default_none

/-! ### Claim C5: idempotent re-run -/

/-- Claim C5: with redownload disabled, a run over a range whose every
visited date is already recoverable from the directory (a parseable
`YYYY-MM-DD`-prefixed regular file) makes zero retrieval calls and has
no effect on the listing; consequently, running the downloader twice in
succession — each first-run download succeeding with a fresh temporary
name — makes zero retrieval calls on the second run and leaves the
directory contents unchanged. -/
theorem claim5_rerun_idempotent (p : Pipeline) (fs : FileSys)
    (ora : Date → DownloadOracle) (today : Date) (sd ed fd : Option Date)
    (s e : Date)
    (hred : p.redownload = false)
    (h1 : sd.isSome ∨ ed.isSome ∨ fd.isSome)
    (h2 : ¬ (ed.isSome ∧ fd.isSome))
    (hres : _get_start_and_end_dates sd ed fd today = some (s, e))
    (hs : Date.le s e → s.Valid) (he : e.Valid) :
    ((∀ d ∈ visitLoop s e, d ∈ _get_already_downloaded_dates fs) →
      ∃ tr, process_and_archive_daily_data p fs ora today sd ed fd =
          .ok (fs, tr) ∧ netCalls tr = 0) ∧
    (p.debug = false →
     (∀ d, (ora d).retrieve = RetrieveOutcome.success) →
     (∀ d, ∃ sz, (ora d).fileAfter = some (sz + 1)) →
     (∀ d, (ora d).rmtreeFails = false) →
     (∀ ent ∈ fs, ∀ d2, ent.name ≠ (ora d2).tempName) →
      ∃ fs1 tr1 tr2,
        process_and_archive_daily_data p fs ora today sd ed fd =
          .ok (fs1, tr1) ∧
        process_and_archive_daily_data p fs1 ora today sd ed fd =
          .ok (fs1, tr2) ∧
        netCalls tr2 = 0) := by
  constructor
  · intro hcov
    have hrun : process_and_archive_daily_data p fs ora today sd ed fd =
        .ok (runLoop p ora (_get_already_downloaded_dates fs) fs s e) :=
      run_eq_ok h1 h2 hres
    have hls : runLoop p ora (_get_already_downloaded_dates fs) fs s e =
        (fs, (visitLoop s e).map Event.skipped) :=
      runLoop_all_skipped hred hcov
    rw [hls] at hrun
    exact ⟨_, hrun, netCalls_map_skipped _⟩
  · intro hdbg hsucc hsz hrm hfresh
    have hrun1 : process_and_archive_daily_data p fs ora today sd ed fd =
        .ok (runLoop p ora (_get_already_downloaded_dates fs) fs s e) :=
      run_eq_ok h1 h2 hres
    have hcov := runLoop_success_covers p ora
      (_get_already_downloaded_dates fs) fs s e hdbg hsucc hsz hrm he hs
      hfresh (fun d hd => hd)
    have hrun2 : process_and_archive_daily_data p
        (runLoop p ora (_get_already_downloaded_dates fs) fs s e).1
        ora today sd ed fd =
        .ok (runLoop p ora
          (_get_already_downloaded_dates
            (runLoop p ora (_get_already_downloaded_dates fs) fs s e).1)
          (runLoop p ora (_get_already_downloaded_dates fs) fs s e).1
          s e) :=
      run_eq_ok h1 h2 hres
    have hls : runLoop p ora
        (_get_already_downloaded_dates
          (runLoop p ora (_get_already_downloaded_dates fs) fs s e).1)
        (runLoop p ora (_get_already_downloaded_dates fs) fs s e).1 s e =
        ((runLoop p ora (_get_already_downloaded_dates fs) fs s e).1,
          (visitLoop s e).map Event.skipped) :=
      runLoop_all_skipped hred hcov.2
    rw [hls] at hrun2
    exact ⟨(runLoop p ora (_get_already_downloaded_dates fs) fs s e).1,
      (runLoop p ora (_get_already_downloaded_dates fs) fs s e).2,
      (visitLoop s e).map Event.skipped, hrun1, hrun2,
      netCalls_map_skipped _⟩

/-- Concrete check of claim C5 at explicit inputs. -/
theorem claim5_rerun_idempotent_witness :
    ((∀ d ∈ visitLoop ⟨2024, 12, 1⟩ ⟨2024, 12, 2⟩,
        d ∈ _get_already_downloaded_dates []) →
      ∃ tr, process_and_archive_daily_data samplePipeline []
          (fun _ => sampleOracle) sampleToday (some ⟨2024, 12, 1⟩)
          (some ⟨2024, 12, 2⟩) none = .ok ([], tr) ∧ netCalls tr = 0) ∧
    (samplePipeline.debug = false →
     (∀ d : Date, sampleOracle.retrieve = RetrieveOutcome.success) →
     (∀ d : Date, ∃ sz, sampleOracle.fileAfter = some (sz + 1)) →
     (∀ d : Date, sampleOracle.rmtreeFails = false) →
     (∀ ent ∈ ([] : FileSys), ∀ d2 : Date,
        ent.name ≠ sampleOracle.tempName) →
      ∃ fs1 tr1 tr2,
        process_and_archive_daily_data samplePipeline []
          (fun _ => sampleOracle) sampleToday (some ⟨2024, 12, 1⟩)
          (some ⟨2024, 12, 2⟩) none = .ok (fs1, tr1) ∧
        process_and_archive_daily_data samplePipeline fs1
          (fun _ => sampleOracle) sampleToday (some ⟨2024, 12, 1⟩)
          (some ⟨2024, 12, 2⟩) none = .ok (fs1, tr2) ∧
        netCalls tr2 = 0) :=
  claim5_rerun_idempotent samplePipeline [] (fun _ => sampleOracle)
    sampleToday (some ⟨2024, 12, 1⟩) (some ⟨2024, 12, 2⟩) none
    ⟨2024, 12, 1⟩ ⟨2024, 12, 2⟩ rfl (by simp) (by simp) rfl
    (fun _ => by decide) (by decide)

end Era5
